import Mathlib

/-!
A shallow embedding of the `lookup` library: the path-navigation engine
(`Exists` / `Get` / `Create` / `Set` over nested records, sequences and maps,
implemented in the source by the recursive `process` function over
`reflect.Value`s) and the type-directed text parser (`Parse`), together with
the generic delimited splitter (`Split`), the path splitter (`split`) and the
container-coercion helper (`setValue`).

Go runtime values reachable through `reflect` are modelled by the inductive
`Val`; Go types by `Ty`.  Struct field slots store their declared type next to
the current value, mirroring `reflect.StructField`.  In-place mutation through
pointers is modelled by state passing: the navigator returns the updated value
next to its result.  Addressability (`reflect.Value.CanSet`) is threaded as a
boolean: entry values are unaddressable, dereferencing a pointer or indexing a
slice yields addressable values, map values are unaddressable.

External collaborators that live outside this repository are modelled at their
specified boundary: the structured-document codec used for record-shaped text
is an explicit function parameter (`Codec`), and the default-value initializer
`utils.NewWithDefaultsOf` is modelled from the spec as type-directed default
construction (`newWithDefaultsOf`).  Panics raised by invalid low-level
reflect conversions are modelled as `POut.fault` outcomes carrying the error
value of the corresponding `reflect` failure, which the recover block of
`setValue` converts to ordinary returned errors.
-/

/-- The navigation mode of `process`: `get`, `set`, `exists`, `create`. -/
inductive Mode where
  | mget | mset | mexists | mcreate
  deriving DecidableEq

/-- Error values returned by the library (structured stand-ins for the
`errors.New` / `fmt.Errorf` values of the source). -/
inductive GoErr where
  /-- "\<op\> supports only structs" -/
  | onlyStructs (op : String)
  /-- "\<op\> supports only struct pointers" -/
  | onlyStructPointers (op : String)
  /-- "field isn't a struct" -/
  | fieldNotAStruct
  /-- "field \<fn\> is not exported" -/
  | fieldNotExported (fn : String)
  /-- `NotFoundError`: "field not found: \<fn\>" -/
  | notFound (fn : String)
  /-- "field isn't addressable: ..." -/
  | fieldNotAddressable
  /-- "field isn't accessible: ..." -/
  | fieldNotAccessible
  /-- "array isn't expandable" -/
  | arrayNotExpandable
  /-- `ErrNotMap`: "field is not a map" -/
  | errNotMap
  /-- "... doesn't implement ..." -/
  | doesNotImplement
  /-- "invalid data type ... for ... field" -/
  | invalidDataType
  /-- a `*reflect.ValueError` raised by calling a method on an invalid value -/
  | reflectValueError
  /-- a reflect assignability panic ("value of type ... is not assignable ...") -/
  | notAssignable
  /-- a `strconv` syntax error -/
  | parseSyntax
  /-- a `strconv` range error -/
  | parseRange
  /-- an `encoding/hex` decode error -/
  | hexDecodeError
  /-- "expected \<want\> elements, got \<got\>" -/
  | expectedElements (want got : Nat)
  /-- "unsupported data type: ..." -/
  | unsupportedDataType
  /-- an error surfaced from the external structured-document codec path
  (`utils.NewOf` / `defaults.Set` / `json.Unmarshal`) -/
  | codecError (msg : String)
  deriving DecidableEq

mutual
/-- Go types as seen by the library: scalars, pointers, the empty interface,
slices, fixed arrays, maps and structs. -/
inductive Ty where
  | str | bool | int | u8
  | ptr (t : Ty)
  | iface
  | slice (t : Ty)
  | array (n : Nat) (t : Ty)
  | mapT (k v : Ty)
  | strukt (fs : TFields)
  deriving DecidableEq

/-- The declared fields of a struct type: name, exportedness, type. -/
inductive TFields where
  | nil
  | cons (name : String) (exp : Bool) (t : Ty) (rest : TFields)
  deriving DecidableEq
end

mutual
/-- Go runtime values.  Nillable kinds (pointer, interface, slice, map) have an
explicit nil constructor carrying the static type information that a typed nil
`reflect.Value` retains. -/
inductive Val where
  | vstr (s : String)
  | vbool (b : Bool)
  | vint (n : Int)
  | vu8 (n : Nat)
  | vptrNil (t : Ty)
  | vptr (t : Ty) (w : Val)
  | vifaceNil
  | viface (w : Val)
  | vsliceNil (t : Ty)
  | vslice (t : Ty) (xs : VList)
  | varray (t : Ty) (xs : VList)
  | vmapNil (k v : Ty)
  | vmap (k v : Ty) (es : VEntries)
  | vstruct (fs : VFields)
  deriving DecidableEq

/-- A list of values (slice / array elements). -/
inductive VList where
  | nil
  | cons (v : Val) (rest : VList)
  deriving DecidableEq

/-- Map entries as an association list with unique keys. -/
inductive VEntries where
  | nil
  | cons (k v : Val) (rest : VEntries)
  deriving DecidableEq

/-- Struct field slots: declared name, exportedness and type, current value. -/
inductive VFields where
  | nil
  | cons (name : String) (exp : Bool) (t : Ty) (v : Val) (rest : VFields)
  deriving DecidableEq
end

instance {ε α : Type} [DecidableEq ε] [DecidableEq α] : DecidableEq (Except ε α) := fun a b =>
  match a, b with
  | .ok x, .ok y => if h : x = y then .isTrue (by rw [h]) else .isFalse (by simp [h])
  | .error x, .error y => if h : x = y then .isTrue (by rw [h]) else .isFalse (by simp [h])
  | .ok _, .error _ => .isFalse (by simp)
  | .error _, .ok _ => .isFalse (by simp)

namespace VList

/-- Number of elements. -/
def length : VList → Nat
  | .nil => 0
  | .cons _ rest => 1 + rest.length

/-- Element at an index, with a default for out-of-range access. -/
def getD : VList → Nat → Val → Val
  | .nil, _, d => d
  | .cons v _, 0, _ => v
  | .cons _ rest, i + 1, d => rest.getD i d

/-- Replace the element at an index (no-op when out of range). -/
def setAt : VList → Nat → Val → VList
  | .nil, _, _ => .nil
  | .cons _ rest, 0, w => .cons w rest
  | .cons v rest, i + 1, w => .cons v (rest.setAt i w)

/-- Concatenation. -/
def append : VList → VList → VList
  | .nil, ys => ys
  | .cons v rest, ys => .cons v (rest.append ys)

/-- `n` copies of a value. -/
def replicate : Nat → Val → VList
  | 0, _ => .nil
  | n + 1, v => .cons v (replicate n v)

/-- Build from a Lean list. -/
def ofList : List Val → VList
  | [] => .nil
  | v :: rest => .cons v (ofList rest)

end VList

namespace VEntries

/-- Lookup of the value stored under a key. -/
def lookup : VEntries → Val → Option Val
  | .nil, _ => none
  | .cons k v rest, key => if k = key then some v else rest.lookup key

/-- Store a value under a key, updating an existing entry or appending a new
one; mirrors `reflect.Value.SetMapIndex` with a valid element. -/
def insertE : VEntries → Val → Val → VEntries
  | .nil, key, w => .cons key w .nil
  | .cons k v rest, key, w =>
      if k = key then .cons k w rest else .cons k v (rest.insertE key w)

/-- Delete the entry under a key; mirrors `SetMapIndex` with the zero value. -/
def remove : VEntries → Val → VEntries
  | .nil, _ => .nil
  | .cons k v rest, key => if k = key then rest else .cons k v (rest.remove key)

end VEntries

/-- ASCII lower-casing of one character (`strings.ToLower` on the identifiers
the library deals with). -/
def lowerChar (c : Char) : Char :=
  if 'A' ≤ c ∧ c ≤ 'Z' then Char.ofNat (c.toNat + 32) else c

namespace VFields

/-- Locate the first field whose lower-cased name equals `fn` (which the
navigator has already lower-cased); returns name, exportedness, declared type
and current value.  Mirrors the field-search loop of `process`. -/
def findLower : VFields → String → Option (String × Bool × Ty × Val)
  | .nil, _ => none
  | .cons name exp t v rest, fn =>
      if String.mk (name.data.map lowerChar) = fn then some (name, exp, t, v)
      else rest.findLower fn

/-- Overwrite the value of the first field whose lower-cased name equals `fn`;
mirrors `reflect.Value.Field(i).Set`. -/
def setLower : VFields → String → Val → VFields
  | .nil, _, _ => .nil
  | .cons name exp t v rest, fn, w =>
      if String.mk (name.data.map lowerChar) = fn then .cons name exp t w rest
      else .cons name exp t v (rest.setLower fn w)

end VFields

/-- The declared type of each field slot. -/
def fieldTys : VFields → TFields
  | .nil => .nil
  | .cons name exp t _ rest => .cons name exp t (fieldTys rest)

/-- `reflect.Value.Type`: the (static) type of a value. -/
def tyOf : Val → Ty
  | .vstr _ => .str
  | .vbool _ => .bool
  | .vint _ => .int
  | .vu8 _ => .u8
  | .vptrNil t => .ptr t
  | .vptr t _ => .ptr t
  | .vifaceNil => .iface
  | .viface _ => .iface
  | .vsliceNil t => .slice t
  | .vslice t _ => .slice t
  | .varray t xs => .array xs.length t
  | .vmapNil k v => .mapT k v
  | .vmap k v _ => .mapT k v
  | .vstruct fs => .strukt (fieldTys fs)

/-- `utils.IsNil`: whether a value is a nil pointer / interface / slice / map. -/
def isNilV : Val → Bool
  | .vptrNil _ => true
  | .vifaceNil => true
  | .vsliceNil _ => true
  | .vmapNil _ _ => true
  | _ => false

/-- `utils.IsNil` applied to a Go `any`: an absent value or a typed nil. -/
def isNilAny : Option Val → Bool
  | none => true
  | some v => isNilV v

/-- `reflect.Value.Interface` on a field slot: reading an interface slot yields
its dynamic value (or a nil `any`), any other slot yields the value itself. -/
def interfaceOf : Val → Option Val
  | .vifaceNil => none
  | .viface w => some w
  | v => some v

def vlistReplicate : Nat → Val → VList
  | 0, _ => .nil
  | n + 1, v => .cons v (vlistReplicate n v)

mutual
/-- The zero value of a type (`reflect.Zero`). -/
def zeroOfTy : Ty → Val
  | .str => .vstr ""
  | .bool => .vbool false
  | .int => .vint 0
  | .u8 => .vu8 0
  | .ptr t => .vptrNil t
  | .iface => .vifaceNil
  | .slice t => .vsliceNil t
  | .array n t => .varray t (vlistReplicate n (zeroOfTy t))
  | .mapT k v => .vmapNil k v
  | .strukt fs => .vstruct (zeroFields fs)
termination_by structural t => t

/-- Zero values for every declared field of a struct type. -/
def zeroFields : TFields → VFields
  | .nil => .nil
  | .cons name exp t rest => .cons name exp t (zeroOfTy t) (zeroFields rest)
termination_by structural fs => fs
end

/-- Modelled from the spec: `utils.NewWithDefaultsOf` (external collaborator
`reflect_utils`, outside this repository) default-constructs a value of a type,
honoring declared per-field defaults.  The model has no default tags, so
structs and scalars are zero-constructed; a pointer type yields a non-nil
pointer to a default pointee (the spec's `Create` initializes nil pointers);
a map type yields an empty non-nil map (the spec: "construct an empty map and
store it"); a slice type yields an empty non-nil slice. -/
def newWithDefaultsOf : Ty → Val
  | .ptr t => .vptr t (zeroOfTy t)
  | .mapT k v => .vmap k v .nil
  | .slice t => .vslice t .nil
  | t => zeroOfTy t

/-- `utils.CopyToHeap`: box a value behind a fresh pointer. -/
def copyToHeap (v : Val) : Val := .vptr (tyOf v) v

/-- `utils.FromPointer`: dereference a pointer value. -/
def fromPointer : Val → Val
  | .vptr _ w => w
  | .vptrNil t => zeroOfTy t
  | v => v

def isPtrTy : Ty → Bool
  | .ptr _ => true
  | _ => false

def isPtrV : Val → Bool
  | .vptr _ _ => true
  | .vptrNil _ => true
  | _ => false

def isNumericTy : Ty → Bool
  | .int => true
  | .u8 => true
  | _ => false

/-- `reflect.Value.CanConvert` restricted to the modelled types: identity,
numeric inter-conversion, integer-to-string (code point) and the
string / byte-slice conversions. -/
def canConvert (t u : Ty) : Bool :=
  t == u
  || (isNumericTy t && isNumericTy u)
  || (isNumericTy t && u == .str)
  || (t == .str && u == .slice .u8)
  || (t == .slice .u8 && u == .str)

/-- `reflect.Value.Convert` on the conversions allowed by `canConvert`. -/
def convVal (v : Val) (u : Ty) : Val :=
  if tyOf v == u then v
  else
    match v, u with
    | .vint n, .u8 => .vu8 (n % 256).toNat
    | .vu8 n, .int => .vint n
    | .vint n, .str => .vstr (String.mk [Char.ofNat n.toNat])
    | .vu8 n, .str => .vstr (String.mk [Char.ofNat n])
    | .vstr s, .slice .u8 => .vslice .u8 (VList.ofList (s.data.map (fun c => .vu8 c.toNat)))
    | .vslice .u8 xs, .str => .vstr (String.mk (bytesToChars xs))
    | w, _ => w
where
  bytesToChars : VList → List Char
    | .nil => []
    | .cons (.vu8 n) rest => Char.ofNat n :: bytesToChars rest
    | .cons _ rest => bytesToChars rest

/-- Whether a type is (transitively through pointers) a struct type. -/
def tyIsStruct : Ty → Bool
  | .strukt _ => true
  | .ptr t => tyIsStruct t
  | _ => false

/-- `utils.IsStruct`: the entry-point guard that the argument denotes a struct,
possibly behind pointers. -/
def isStructV : Val → Bool
  | .vstruct _ => true
  | .vptr _ w => isStructV w
  | .vptrNil t => tyIsStruct t
  | _ => false

/-- `utils.IsPointer`: the entry-point guard of `Create` and `Set`. -/
def isPointerV : Val → Bool
  | .vptr _ _ => true
  | .vptrNil _ => true
  | _ => false

/-- The pointer-dereferencing loop at the head of `process`
(`for v.Kind() == reflect.Pointer { v = v.Elem() }`): peel the pointer chain,
returning the chain's pointee types and the core value; `none` when a nil
pointer is hit (the loop then leaves an invalid value). -/
def unwrapPtrs : Val → Option (List Ty × Val)
  | .vptr t w =>
      match unwrapPtrs w with
      | some (ch, core) => some (t :: ch, core)
      | none => none
  | .vptrNil _ => none
  | v => some ([], v)

/-- Re-wrap a (possibly updated) core value in its pointer chain; models that
mutating the pointee mutates what the caller's pointers reach. -/
def rewrapPtrs : List Ty → Val → Val
  | [], v => v
  | t :: ch, v => .vptr t (rewrapPtrs ch v)

example : zeroOfTy (.strukt (.cons "A" true (.ptr .str) .nil))
    = .vstruct (.cons "A" true (.ptr .str) (.vptrNil .str) .nil) := rfl
example : (VList.ofList [.vint 1, .vint 2]).setAt 1 (.vint 5)
    = VList.ofList [.vint 1, .vint 5] := rfl

/-! ### String machinery

The path splitter `split` (built on `strings.FieldsFunc` with a stateful
closure), the generic delimited splitter `Split`, the `(.*)\[(.*)\]` segment
regular expression, `strings.ToLower` / `strings.Trim`, and the `strconv`
parsers, all modelled character by character. -/

/-- Named characters (quote marks, backslash, braces). -/
def quoteD : Char := Char.ofNat 34

def quoteS : Char := Char.ofNat 39

def quoteB : Char := Char.ofNat 96

def backslashC : Char := Char.ofNat 92

def braceL : Char := Char.ofNat 123

def braceR : Char := Char.ofNat 125

/-- `strings.ToLower`. -/
def lowerStr (s : String) : String := String.mk (s.data.map lowerChar)

/-- Drop leading characters that belong to a cutset. -/
def dropLeading (cut : List Char) : List Char → List Char
  | [] => []
  | c :: rest => if cut.contains c then dropLeading cut rest else c :: rest

/-- `strings.Trim`: drop characters of a cutset from both ends. -/
def trimBoth (cut : List Char) (cs : List Char) : List Char :=
  (dropLeading cut (dropLeading cut cs).reverse).reverse

/-- The whitespace cutset `" \t\n\r"`. -/
def wsCut : List Char := [' ', '\t', '\n', '\r']

/-- The quote cutset of the path splitter: double quote, single quote,
backtick and whitespace. -/
def quoteWsCut : List Char := [quoteD, quoteS, quoteB, ' ', '\t', '\n', '\r']

/-- The map-key cutset of `process`: double quote, backslash, backtick,
single quote. -/
def keyCut : List Char := [quoteD, backslashC, quoteB, quoteS]

/-- Decimal digits to a number; `none` when empty or non-digit. -/
def digitsToNat : List Char → Option Nat
  | [] => none
  | cs => go cs 0
where
  go : List Char → Nat → Option Nat
    | [], acc => some acc
    | c :: rest, acc =>
        if '0' ≤ c ∧ c ≤ '9' then go rest (acc * 10 + (c.toNat - '0'.toNat))
        else none

/-- `strconv.Atoi` (= `ParseInt` base 10, bit size 0): optional sign, decimal
digits, 64-bit range; only the error-free result is used by `process`, so the
model collapses failures to `none`. -/
def atoiGo (s : String) : Option Int :=
  match s.data with
  | [] => none
  | c :: rest =>
      if c = '+' then
        match digitsToNat rest with
        | some n => if n ≤ 2 ^ 63 - 1 then some (Int.ofNat n) else none
        | none => none
      else if c = '-' then
        match digitsToNat rest with
        | some n => if n ≤ 2 ^ 63 then some (-(Int.ofNat n)) else none
        | none => none
      else
        match digitsToNat (c :: rest) with
        | some n => if n ≤ 2 ^ 63 - 1 then some (Int.ofNat n) else none
        | none => none

/-- `strconv.ParseInt(txt, 10, 64)`: sign and digits, with distinct syntax and
range errors. -/
def parseInt64Go (s : String) : Except GoErr Int :=
  match s.data with
  | [] => .error .parseSyntax
  | c :: rest =>
      if c = '+' then
        match digitsToNat rest with
        | some n => if n ≤ 2 ^ 63 - 1 then .ok (Int.ofNat n) else .error .parseRange
        | none => .error .parseSyntax
      else if c = '-' then
        match digitsToNat rest with
        | some n => if n ≤ 2 ^ 63 then .ok (-(Int.ofNat n)) else .error .parseRange
        | none => .error .parseSyntax
      else
        match digitsToNat (c :: rest) with
        | some n => if n ≤ 2 ^ 63 - 1 then .ok (Int.ofNat n) else .error .parseRange
        | none => .error .parseSyntax

/-- `strconv.ParseUint(txt, 10, 8)`: digits only (no sign), range below 256. -/
def parseUint8Go (s : String) : Except GoErr Nat :=
  match digitsToNat s.data with
  | some n => if n ≤ 255 then .ok n else .error .parseRange
  | none => .error .parseSyntax

/-- `strconv.ParseBool`: the exact accepted spellings. -/
def parseBoolGo (s : String) : Option Bool :=
  if s = "1" ∨ s = "t" ∨ s = "T" ∨ s = "TRUE" ∨ s = "true" ∨ s = "True" then some true
  else if s = "0" ∨ s = "f" ∨ s = "F" ∨ s = "FALSE" ∨ s = "false" ∨ s = "False" then some false
  else none

/-- The value of a hexadecimal digit. -/
def hexDigit (c : Char) : Option Nat :=
  if '0' ≤ c ∧ c ≤ '9' then some (c.toNat - '0'.toNat)
  else if 'a' ≤ c ∧ c ≤ 'f' then some (c.toNat - 'a'.toNat + 10)
  else if 'A' ≤ c ∧ c ≤ 'F' then some (c.toNat - 'A'.toNat + 10)
  else none

/-- `hex.DecodeString`: decode pairs of hex digits; an odd length or an invalid
digit is an error. -/
def hexDecode : List Char → Option (List Nat)
  | [] => some []
  | [_] => none
  | c1 :: c2 :: rest =>
      match hexDigit c1, hexDigit c2 with
      | some h, some l =>
          match hexDecode rest with
          | some bs => some ((h * 16 + l) :: bs)
          | none => none
      | _, _ => none

/-- Whether the text has the `0x` prefix (`strings.HasPrefix(txt, "0x")`). -/
def has0x (s : String) : Bool :=
  match s.data with
  | '0' :: 'x' :: _ => true
  | _ => false

/-- The generic delimited splitter `Split(txt, sep)`: split on `sep` while
double quotes, single quotes, backticks, brackets and braces suspend
splitting; adjacent separators yield empty elements. -/
def splitGAux (sep : Char) : List Char → Bool → Bool → Bool → Bool → Bool →
    List Char → List (List Char)
  | [], _, _, _, _, _, cur => [cur.reverse]
  | c :: rest, q, sq, bt, br, bc, cur =>
      if c = quoteD then
        splitGAux sep rest (if ¬sq ∧ ¬bt then ¬q else q) sq bt br bc (c :: cur)
      else if c = quoteS then
        splitGAux sep rest q (if ¬q ∧ ¬bt then ¬sq else sq) bt br bc (c :: cur)
      else if c = quoteB then
        splitGAux sep rest q sq (if ¬q ∧ ¬sq then ¬bt else bt) br bc (c :: cur)
      else if c = '[' then
        splitGAux sep rest q sq bt (if ¬q ∧ ¬sq ∧ ¬bt then true else br) bc (c :: cur)
      else if c = ']' then
        splitGAux sep rest q sq bt (if ¬q ∧ ¬sq ∧ ¬bt then false else br) bc (c :: cur)
      else if c = braceL then
        splitGAux sep rest q sq bt br (if ¬q ∧ ¬sq ∧ ¬bt then true else bc) (c :: cur)
      else if c = braceR then
        splitGAux sep rest q sq bt br (if ¬q ∧ ¬sq ∧ ¬bt then false else bc) (c :: cur)
      else if c = sep then
        if ¬q ∧ ¬sq ∧ ¬bt ∧ ¬br ∧ ¬bc then
          cur.reverse :: splitGAux sep rest q sq bt br bc []
        else splitGAux sep rest q sq bt br bc (c :: cur)
      else splitGAux sep rest q sq bt br bc (c :: cur)

/-- `Split`, the exported generic splitter of the parser file. -/
def splitG (txt : String) (sep : Char) : List String :=
  (splitGAux sep txt.data false false false false false []).map String.mk

/-- `strings.Split(p, "=")`: plain split on every occurrence, no grouping. -/
def splitAllChar (sep : Char) : List Char → List Char → List (List Char)
  | [], cur => [cur.reverse]
  | c :: rest, cur =>
      if c = sep then cur.reverse :: splitAllChar sep rest []
      else splitAllChar sep rest (c :: cur)

/-- The scan of the path splitter `split`: `strings.FieldsFunc` with the
stateful closure that toggles a single quote flag on any quote mark and a
bracket flag on brackets, splitting on `.` outside both; empty fields are
discarded by `FieldsFunc`. -/
def splitPathAux : List Char → Bool → Bool → List Char → List (List Char)
  | [], _, _, cur => if cur.isEmpty then [] else [cur.reverse]
  | c :: rest, q, br, cur =>
      let q2 := if c = quoteD ∨ c = quoteS ∨ c = quoteB then ¬q else q
      let br2 := if c = '[' then true else if c = ']' then false else br
      if ¬br2 ∧ ¬q2 ∧ c = '.' then
        (if cur.isEmpty then [] else [cur.reverse]) ++ splitPathAux rest q2 br2 []
      else splitPathAux rest q2 br2 (c :: cur)

/-- The path splitter `split`: field-split on unquoted, unbracketed dots, then
trim every part of quote marks and whitespace. -/
def split (path : String) : List String :=
  (splitPathAux path.data false false []).map (fun cs => String.mk (trimBoth quoteWsCut cs))

/-- Last index of a character in a list. -/
def lastIdxOf (c : Char) : List Char → Option Nat
  | [] => none
  | x :: rest =>
      match lastIdxOf c rest with
      | some i => some (i + 1)
      | none => if x = c then some 0 else none

/-- The `(.*)\[(.*)\]` match of `process` (greedy, leftmost): the first group
ends at the last `[` that still has a `]` after it, the second group ends at
the last `]`.  Returns the field-name part and the optional bracket payload. -/
def matchArraySeg (s : String) : String × Option String :=
  let cs := s.data
  match lastIdxOf ']' cs with
  | none => (s, none)
  | some j =>
      match lastIdxOf '[' (cs.take j) with
      | none => (s, none)
      | some i => (String.mk (cs.take i), some (String.mk ((cs.take j).drop (i + 1))))

example : split "a..b" = ["a", "b"] := rfl
example : split ".a.b" = ["a", "b"] := rfl
example : split "" = [] := rfl
example : split "." = [] := rfl
example : split "a.b" = ["a", "b"] := rfl
example : split "Nested . Data" = ["Nested", "Data"] := rfl
example : matchArraySeg "items[5]" = ("items", some "5") := rfl
example : matchArraySeg "a[1][2]" = ("a[1]", some "2") := rfl
example : matchArraySeg "plain" = ("plain", none) := rfl
example : splitG "a,b=2,c" ',' = ["a", "b=2", "c"] := rfl
example : splitG "" ',' = [""] := rfl
example : atoiGo "5" = some 5 := rfl
example : atoiGo "-3" = some (-3) := rfl
example : atoiGo "x" = none := rfl
example : hexDecode "0102".data = some [1, 2] := rfl
example : hexDecode "68656c6c6f".data = some [104, 101, 108, 108, 111] := rfl

/-! ### The type-directed parser -/

/-- The external structured-document codec (spec section 6): given record-shaped
text and the record type, produce a decoded value or an error message.  In the
source this is `utils.NewOf` + `defaults.Set` + `json.Unmarshal`; it lives
outside this repository, so it is a parameter of the development. -/
abbrev Codec := Ty → String → Except String Val

/-- A parser hook: a target type and the caller's conversion function. -/
structure ParserHook where
  To : Ty
  Fn : String → Except GoErr (Option Val)

/-- The built-in conversion of `Parse` (everything after the hook loop).
Recursive calls inside composite branches are `Parse(part, elemType)` with no
hooks, which is exactly this function.

None of the types in `Ty` implements `encoding.TextUnmarshaler` or
`yaml.Unmarshaler` (they denote built-in Go shapes), and none equals
`time.Duration`, `net.HardwareAddr` or `net.IPNet`, so those probes of the
source all fail and fall through to the kind switch. -/
def parseI (codec : Codec) : Ty → String → Except GoErr (Option Val)
  | .str, txt => .ok (some (.vstr txt))
  | .ptr .str, txt => .ok (some (.vptr .str (.vstr txt)))
  | .bool, txt =>
      match parseBoolGo txt with
      | none => .error .parseSyntax
      | some b => .ok (some (.vbool b))
  | .ptr .bool, txt =>
      match parseBoolGo txt with
      | none => .error .parseSyntax
      | some b => .ok (some (.vptr .bool (.vbool b)))
  | .int, txt => (parseInt64Go txt).map (fun n => some (.vint n))
  | .ptr .int, txt => (parseInt64Go txt).map (fun n => some (.vptr .int (.vint n)))
  | .u8, txt => (parseUint8Go txt).map (fun n => some (.vu8 n))
  | .ptr .u8, txt => (parseUint8Go txt).map (fun n => some (.vptr .u8 (.vu8 n)))
  | .slice e, txt =>
      if e = .u8 ∧ has0x txt then
        match hexDecode (txt.data.drop 2) with
        | none => .error .hexDecodeError
        | some bs => .ok (some (.vslice .u8 (VList.ofList (bs.map Val.vu8))))
      else if txt = "" then .ok (some (.vslice e .nil))
      else
        ((splitG txt ',').foldr
          (fun p (acc : Except GoErr VList) =>
            match parseI codec e p with
            | .error err => .error err
            | .ok none => .error .reflectValueError
            | .ok (some w) =>
                match acc with
                | .error err => .error err
                | .ok rest => .ok (VList.cons w rest))
          (Except.ok VList.nil)).map (fun xs => some (.vslice e xs))
  | .ptr (.slice e), txt =>
      if e = .u8 ∧ has0x txt then
        match hexDecode (txt.data.drop 2) with
        | none => .error .hexDecodeError
        | some bs =>
            .ok (some (.vptr (.slice .u8) (.vslice .u8 (VList.ofList (bs.map Val.vu8)))))
      else if txt = "" then .ok (some (.vptr (.slice e) (.vslice e .nil)))
      else
        ((splitG txt ',').foldr
          (fun p (acc : Except GoErr VList) =>
            match parseI codec e p with
            | .error err => .error err
            | .ok none => .error .reflectValueError
            | .ok (some w) =>
                match acc with
                | .error err => .error err
                | .ok rest => .ok (VList.cons w rest))
          (Except.ok VList.nil)).map (fun xs => some (.vptr (.slice e) (.vslice e xs)))
  | .array n e, txt =>
      if e = .u8 ∧ has0x txt then
        match hexDecode (txt.data.drop 2) with
        | none => .error .hexDecodeError
        | some bs =>
            .ok (some (.varray .u8 (VList.append
              (VList.ofList ((bs.take n).map Val.vu8))
              (VList.replicate (n - bs.length) (.vu8 0)))))
      else if txt = "" then .ok (some (zeroOfTy (.array n e)))
      else
        let parts := splitG txt ','
        if parts.length ≠ n then .error (.expectedElements n parts.length)
        else
          (parts.foldr
            (fun p (acc : Except GoErr VList) =>
              match parseI codec e p with
              | .error err => .error err
              | .ok none => .error .reflectValueError
              | .ok (some w) =>
                  match acc with
                  | .error err => .error err
                  | .ok rest => .ok (VList.cons w rest))
            (Except.ok VList.nil)).map (fun xs => some (.varray e xs))
  | .ptr (.array n e), txt =>
      if e = .u8 ∧ has0x txt then
        match hexDecode (txt.data.drop 2) with
        | none => .error .hexDecodeError
        | some bs =>
            .ok (some (.vptr (.array n .u8) (.varray .u8 (VList.append
              (VList.ofList ((bs.take n).map Val.vu8))
              (VList.replicate (n - bs.length) (.vu8 0))))))
      else if txt = "" then .ok (some (.vptr (.array n e) (zeroOfTy (.array n e))))
      else
        let parts := splitG txt ','
        if parts.length ≠ n then .error (.expectedElements n parts.length)
        else
          (parts.foldr
            (fun p (acc : Except GoErr VList) =>
              match parseI codec e p with
              | .error err => .error err
              | .ok none => .error .reflectValueError
              | .ok (some w) =>
                  match acc with
                  | .error err => .error err
                  | .ok rest => .ok (VList.cons w rest))
            (Except.ok VList.nil)).map (fun xs => some (.vptr (.array n e) (.varray e xs)))
  | .mapT kt vt, txt =>
      ((splitG txt ',').foldl
        (fun (acc : Except GoErr VEntries) p =>
          match acc with
          | .error err => .error err
          | .ok es =>
              match splitAllChar '=' p.data [] with
              | [k0, v0] =>
                  match parseI codec kt (String.mk k0) with
                  | .error err => .error err
                  | .ok none => .error .reflectValueError
                  | .ok (some kw) =>
                      match parseI codec vt (String.mk v0) with
                      | .error err => .error err
                      | .ok none => .error .reflectValueError
                      | .ok (some vw) => .ok (es.insertE kw vw)
              | _ => .ok es)
        (Except.ok VEntries.nil)).map (fun es => some (.vmap kt vt es))
  | .ptr (.mapT kt vt), txt =>
      ((splitG txt ',').foldl
        (fun (acc : Except GoErr VEntries) p =>
          match acc with
          | .error err => .error err
          | .ok es =>
              match splitAllChar '=' p.data [] with
              | [k0, v0] =>
                  match parseI codec kt (String.mk k0) with
                  | .error err => .error err
                  | .ok none => .error .reflectValueError
                  | .ok (some kw) =>
                      match parseI codec vt (String.mk v0) with
                      | .error err => .error err
                      | .ok none => .error .reflectValueError
                      | .ok (some vw) => .ok (es.insertE kw vw)
              | _ => .ok es)
        (Except.ok VEntries.nil)).map (fun es => some (.vptr (.mapT kt vt) (.vmap kt vt es)))
  | .strukt fsT, txt =>
      match codec (.strukt fsT) txt with
      | .error msg => .error (.codecError msg)
      | .ok w => .ok (some w)
  | .ptr (.strukt fsT), txt =>
      match codec (.strukt fsT) txt with
      | .error msg => .error (.codecError msg)
      | .ok w => .ok (some (.vptr (.strukt fsT) w))
  | .iface, _ => .error .unsupportedDataType
  | .ptr .iface, _ => .error .unsupportedDataType
  | .ptr (.ptr _), _ => .error .unsupportedDataType
termination_by structural t => t

/-- `Parse(txt, t, hooks...)`: the hook loop followed by the built-in
conversion.  The first hook whose target type equals `t` is invoked
exclusively. -/
def parse (codec : Codec) (t : Ty) (txt : String) (hooks : List ParserHook) :
    Except GoErr (Option Val) :=
  match hooks.find? (fun h => h.To == t) with
  | some h => h.Fn txt
  | none => parseI codec t txt

/-- A trivial codec used for closed evaluation examples. -/
def codec0 : Codec := fun _ _ => .error "unused"

example : parseI codec0 (.slice .int) "1,2,3"
    = .ok (some (.vslice .int (VList.ofList [.vint 1, .vint 2, .vint 3]))) := rfl
example : parseI codec0 (.slice .int) "" = .ok (some (.vslice .int .nil)) := rfl
example : parseI codec0 (.mapT .str .str) "a,b=5"
    = .ok (some (.vmap .str .str (.cons (.vstr "b") (.vstr "5") .nil))) := rfl
example : parseI codec0 (.mapT .str .int) "a=1,b=2"
    = .ok (some (.vmap .str .int (.cons (.vstr "a") (.vint 1) (.cons (.vstr "b") (.vint 2) .nil)))) := rfl
example : parseI codec0 (.mapT .str .str) "a=b=c" = .ok (some (.vmap .str .str .nil)) := rfl
example : parseI codec0 .bool "not-a-bool" = .error .parseSyntax := rfl
example : parseI codec0 (.slice .u8) "0x68656c6c6f"
    = .ok (some (.vslice .u8 (VList.ofList [.vu8 104, .vu8 101, .vu8 108, .vu8 108, .vu8 111]))) := rfl
example : parseI codec0 (.array 3 .u8) "0x0102"
    = .ok (some (.varray .u8 (VList.ofList [.vu8 1, .vu8 2, .vu8 0]))) := rfl

/-! ### The container-coercion helper `setValue` -/

/-- The outcome of running code that may raise a reflect panic: a normal
result, a fault whose payload is an error value (`*reflect.ValueError`), or a
fault whose payload is a plain string (the message `reflect` passes to
`panic`). -/
inductive POut (α : Type) where
  | norm (a : α)
  | fault (e : GoErr)
  | faultStr (msg : String)
  deriving DecidableEq

/-- The body of `setValue` without its `defer`/`recover` wrapper.  Parameters:
the declared type of the destination (`field.Type()`), whether the destination
is settable (`field.CanSet()`), the declared element type `e` of the container
slot, and the caller's value.  On success it returns the `(result, stored)`
pair: the value `setValue` reports and the value the `set` callback stores in
the slot (`none` when the callback never ran).  Low-level reflect failures are
faults carrying the panic payload: calling `Type` (or `CanConvert`, or `Set`
of an invalid value) on the invalid `reflect.ValueOf(nil)` panics with a
`*reflect.ValueError`, which implements `error`; probing `Implements` on a
non-interface type and handing the `set` callback a value not assignable to
the slot panic with plain strings. -/
def setValueCore (codec : Codec) (fieldTy : Ty) (canSet : Bool) (e : Ty)
    (value : Option Val) : POut (Except GoErr (Option Val × Option Val)) :=
  if ¬canSet then .norm (.error .fieldNotAddressable)
  else
    match value with
    | none => .fault .reflectValueError
    | some V =>
      if fieldTy = .iface then
        if e = .iface then .norm (.ok (some V, some V))
        else .faultStr "reflect: non-interface type passed to Type.Implements"
      else
        match V with
        | .vstr s =>
            match parseI codec e s with
            | .error err => .norm (.error err)
            | .ok none => .fault .reflectValueError
            | .ok (some w) =>
                if tyOf w = e ∨ e = .iface then .norm (.ok (some w, some w))
                else .faultStr "reflect.Set: value of wrong type for slot"
        | _ =>
            if canConvert (tyOf V) fieldTy then
              let V2 := convVal V fieldTy
              if tyOf V2 = e ∨ e = .iface then .norm (.ok (some V2, some V2))
              else .faultStr "reflect.Set: value of wrong type for slot"
            else if tyOf V ≠ e then .norm (.error .invalidDataType)
            else .norm (.ok (some V, some V))

/-- `setValue` with its `defer`/`recover` wrapper
(`if e, ok := r.(error); ok { err = e }`): every fault is trapped; a fault
whose payload implements `error` is returned as the ordinary error result,
while a fault with a string payload leaves the named results untouched, so the
helper silently returns a nil result, nothing stored, and a nil error. -/
def setValueM (codec : Codec) (fieldTy : Ty) (canSet : Bool) (e : Ty)
    (value : Option Val) : Except GoErr (Option Val × Option Val) :=
  match setValueCore codec fieldTy canSet e value with
  | .norm r => r
  | .fault ge => .error ge
  | .faultStr _ => .ok (none, none)

/-! ### The path navigator `process` -/

/-- Normalization of a raw path segment: `strings.ToLower` then
`strings.Trim(fn, " \t\n\r")`. -/
def normSeg (seg : String) : String :=
  String.mk (trimBoth wsCut (lowerStr seg).data)

/-- `f.Kind() == reflect.Slice || f.Kind() == reflect.Array`. -/
def isSliceOrArrayV : Val → Bool
  | .vslice _ _ => true
  | .vsliceNil _ => true
  | .varray _ _ => true
  | _ => false

/-- `reflect.Value.Len` of a slice or array (a nil slice has length 0). -/
def lenOfV : Val → Nat
  | .vslice _ xs => xs.length
  | .varray _ xs => xs.length
  | _ => 0

/-- The recursive walk `process(v, mode, value, path...)`, state-passing: it
returns the updated value next to the result.  `addr` models
`reflect.Value.CanSet` of the incoming value's fields: entry values are
unaddressable, pointer dereferencing and slice indexing yield addressable
values, values read out of maps are unaddressable. -/
def processM (codec : Codec) (m : Mode) (value : Option Val) :
    List String → Val → Bool → Val × Except GoErr (Option Val)
  | [], v, _ => (v, .ok none)
  | seg :: rest, v, addr =>
    match unwrapPtrs v with
    | none => (v, .error .fieldNotAStruct)
    | some (ch, core) =>
      let ret := fun (core2 : Val) (r : Except GoErr (Option Val)) =>
        (rewrapPtrs ch core2, r)
      match core with
      | .vstruct fs =>
        let addr1 := if ch.isEmpty then addr else true
        let fn0 := normSeg seg
        let pr := matchArraySeg fn0
        let fn := pr.1
        let keyOpt := pr.2
        match fs.findLower fn with
        | none => ret core (.error (.notFound fn))
        | some (_, expf, fty, fval) =>
          if ¬expf then ret core (.error (.fieldNotExported fn))
          else if m = .mset ∧ rest = [] ∧ keyOpt = none then
            -- direct assignment into the located field
            if ¬addr1 then ret core (.error .fieldNotAddressable)
            else
              match value with
              | none =>
                  let z := zeroOfTy fty
                  ret (.vstruct (fs.setLower fn z)) (.ok (interfaceOf z))
              | some V0 =>
                  if fty = .iface then
                    ret (.vstruct (fs.setLower fn (.viface V0))) (.ok (some V0))
                  else
                    let V1 :=
                      if isPtrTy fty then (if isPtrV V0 then V0 else copyToHeap V0)
                      else (if isPtrV V0 then fromPointer V0 else V0)
                    match V1 with
                    | .vstr s =>
                        (match parseI codec fty s with
                        | .error err => ret core (.error err)
                        | .ok none => ret core (.error .reflectValueError)
                        | .ok (some w) =>
                            if tyOf w = fty then
                              ret (.vstruct (fs.setLower fn w)) (.ok (some w))
                            else ret core (.error .notAssignable))
                    | .vptr _ (.vstr s) =>
                        (match parseI codec fty s with
                        | .error err => ret core (.error err)
                        | .ok none => ret core (.error .reflectValueError)
                        | .ok (some w) =>
                            if tyOf w = fty then
                              ret (.vstruct (fs.setLower fn w)) (.ok (some w))
                            else ret core (.error .notAssignable))
                    | _ =>
                        if canConvert (tyOf V1) fty then
                          let V2 := convVal V1 fty
                          ret (.vstruct (fs.setLower fn V2)) (.ok (some V2))
                        else if tyOf V1 ≠ fty then
                          ret core (.error .invalidDataType)
                        else
                          ret (.vstruct (fs.setLower fn V1)) (.ok (some V1))
          else
            -- resolve the field value, default-constructing an absent one when
            -- more traversal is required (or mode is create)
            let step : (Val × Except GoErr (Option Val)) ⊕ (VFields × Val × Option Val × Bool) :=
              if isNilV fval ∧ (rest ≠ [] ∨ m = .mcreate) then
                if m = .mexists then .inl (ret core (.ok none))
                else
                  let nv := newWithDefaultsOf fty
                  if ¬addr1 then .inl (ret core (.error .fieldNotAddressable))
                  else .inr (fs.setLower fn nv, nv, interfaceOf nv, false)
              else .inr (fs, fval, interfaceOf fval, addr1)
            match step with
            | .inl r => r
            | .inr (fs2, fEff, valr, childAddr) =>
              let core2 := Val.vstruct fs2
              -- bracket payload: numeric (or empty) index for slices/arrays,
              -- otherwise a map key
              let idxKey : Int × Option String :=
                match keyOpt with
                | some ks =>
                    if isSliceOrArrayV fEff then
                      if ks = "" then (Int.ofNat (lenOfV fEff), none)
                      else
                        match atoiGo ks with
                        | some n => (n, none)
                        | none => (-1, some ks)
                    else (-1, some ks)
                | none => (-1, none)
              let index := idxKey.1
              let key2 := idxKey.2
              -- the map-key handling, shared between the nil-constructed and
              -- the already-present map (the source falls through after
              -- storing a fresh empty map)
              let mapGo := fun (fs3 : VFields) (kt vt : Ty) (es : VEntries) (ks : String) =>
                let kTrim := String.mk (trimBoth keyCut ks.data)
                let keyR : Except GoErr Val :=
                  if kt = .str then .ok (.vstr kTrim)
                  else
                    match parseI codec kt kTrim with
                    | .error e => .error e
                    | .ok none => .error .reflectValueError
                    | .ok (some w) => .ok w
                match keyR with
                | .error e => ret (.vstruct fs3) (.error e)
                | .ok kv =>
                  if m = .mset ∧ rest = [] then
                    if isNilAny value then
                      ret (.vstruct (fs3.setLower fn (.vmap kt vt (es.remove kv)))) (.ok none)
                    else
                      match setValueM codec (.mapT kt vt) addr1 vt value with
                      | .error e => ret (.vstruct fs3) (.error e)
                      | .ok (valr2, some stored) =>
                          ret (.vstruct (fs3.setLower fn (.vmap kt vt (es.insertE kv stored))))
                            (.ok valr2)
                      | .ok (valr2, none) => ret (.vstruct fs3) (.ok valr2)
                  else
                    match es.lookup kv with
                    | some ev =>
                        if rest = [] then ret (.vstruct fs3) (.ok (interfaceOf ev))
                        else
                          let pr2 := processM codec m value rest ev false
                          ret (.vstruct (fs3.setLower fn (.vmap kt vt (es.insertE kv pr2.1))))
                            pr2.2
                    | none =>
                        if m = .mexists then ret (.vstruct fs3) (.ok none)
                        else
                          let ztmp := newWithDefaultsOf vt
                          match interfaceOf ztmp with
                          | none =>
                              -- the freshly constructed default is a nil `any`
                              -- (interface element type): `reflect.ValueOf` of
                              -- it is invalid, nothing is stored, and further
                              -- traversal fails on the invalid value
                              if rest = [] then ret (.vstruct fs3) (.ok none)
                              else ret (.vstruct fs3) (.error .fieldNotAStruct)
                          | some _ =>
                              let es2 := es.insertE kv ztmp
                              if rest = [] then
                                ret (.vstruct (fs3.setLower fn (.vmap kt vt es2)))
                                  (.ok (some ztmp))
                              else
                                let pr2 := processM codec m value rest ztmp false
                                ret (.vstruct (fs3.setLower fn
                                  (.vmap kt vt (es2.insertE kv pr2.1)))) pr2.2
              if 0 ≤ index then
                match fEff with
                | .varray t xs =>
                    if (xs.length : Int) > index then
                      let i := index.toNat
                      let elem := xs.getD i .vifaceNil
                      if m = .mset ∧ rest = [] then
                        match setValueM codec t addr1 t value with
                        | .error e => ret core2 (.error e)
                        | .ok (valr2, some stored) =>
                            ret (.vstruct (fs2.setLower fn (.varray t (xs.setAt i stored))))
                              (.ok valr2)
                        | .ok (valr2, none) => ret core2 (.ok valr2)
                      else
                        if rest = [] then ret core2 (.ok (interfaceOf elem))
                        else
                          -- the array branch never rebinds f to the element, so
                          -- the recursion descends into the array itself
                          let pr2 := processM codec m value rest (.varray t xs) childAddr
                          ret (.vstruct (fs2.setLower fn pr2.1)) pr2.2
                    else ret core2 (.error .arrayNotExpandable)
                | .vslice t xs =>
                    let l := xs.length
                    if m = .mexists ∧ (l : Int) ≤ index then ret core2 (.ok none)
                    else
                      let i := index.toNat
                      let xs1 :=
                        if (l : Int) ≤ index then
                          xs.append (VList.replicate (i + 1 - l) (newWithDefaultsOf t))
                        else xs
                      if m = .mset ∧ rest = [] then
                        match setValueM codec t true t value with
                        | .error e => ret core2 (.error e)
                        | .ok (_, stored) =>
                            let xs2 := match stored with
                              | some st => xs1.setAt i st
                              | none => xs1
                            if ¬addr1 then ret core2 (.error .fieldNotAddressable)
                            else
                              let elem := xs2.getD i .vifaceNil
                              ret (.vstruct (fs2.setLower fn (.vslice t xs2)))
                                (.ok (interfaceOf elem))
                      else
                        if ¬addr1 then ret core2 (.error .fieldNotAddressable)
                        else
                          let elem := xs1.getD i .vifaceNil
                          if rest = [] then
                            ret (.vstruct (fs2.setLower fn (.vslice t xs1)))
                              (.ok (interfaceOf elem))
                          else
                            let pr2 := processM codec m value rest elem true
                            ret (.vstruct (fs2.setLower fn (.vslice t (xs1.setAt i pr2.1)))) pr2.2
                | .vsliceNil t =>
                    if m = .mexists then ret core2 (.ok none)
                    else
                      let i := index.toNat
                      let xs1 := VList.replicate (i + 1) (newWithDefaultsOf t)
                      if m = .mset ∧ rest = [] then
                        match setValueM codec t true t value with
                        | .error e => ret core2 (.error e)
                        | .ok (_, stored) =>
                            let xs2 := match stored with
                              | some st => xs1.setAt i st
                              | none => xs1
                            if ¬addr1 then ret core2 (.error .fieldNotAddressable)
                            else
                              let elem := xs2.getD i .vifaceNil
                              ret (.vstruct (fs2.setLower fn (.vslice t xs2)))
                                (.ok (interfaceOf elem))
                      else
                        if ¬addr1 then ret core2 (.error .fieldNotAddressable)
                        else
                          let elem := xs1.getD i .vifaceNil
                          if rest = [] then
                            ret (.vstruct (fs2.setLower fn (.vslice t xs1)))
                              (.ok (interfaceOf elem))
                          else
                            let pr2 := processM codec m value rest elem true
                            ret (.vstruct (fs2.setLower fn (.vslice t (xs1.setAt i pr2.1)))) pr2.2
                | _ => ret core2 (.error .errNotMap)
              else
                match key2 with
                | some ks =>
                    match fEff with
                    | .vmapNil kt vt =>
                        if m = .mexists then ret core2 (.ok none)
                        else if ¬addr1 then ret core2 (.error .fieldNotAddressable)
                        else mapGo (fs2.setLower fn (.vmap kt vt .nil)) kt vt .nil ks
                    | .vmap kt vt es => mapGo fs2 kt vt es ks
                    | _ => ret core2 (.error .errNotMap)
                | none =>
                    if rest = [] then ret core2 (.ok valr)
                    else
                      let pr2 := processM codec m value rest fEff childAddr
                      ret (.vstruct (fs2.setLower fn pr2.1)) pr2.2
      | _ => (v, .error .fieldNotAStruct)
termination_by structural p _v _addr => p

/-! ### Entry points -/

/-- `Exists(obj, path)`: state-passing version returning the (possibly
updated) object next to the boolean result. -/
def ExistsF (codec : Codec) (root : Val) (path : String) : Val × Except GoErr Bool :=
  if ¬isStructV root then (root, .error (.onlyStructs "exists"))
  else
    match processM codec .mexists none (split path) root false with
    | (r2, .error e) => (r2, .error e)
    | (r2, .ok res) => (r2, .ok (¬isNilAny res))

/-- `Get(obj, path)`. -/
def GetF (codec : Codec) (root : Val) (path : String) : Val × Except GoErr (Option Val) :=
  if ¬isStructV root then (root, .error (.onlyStructs "get"))
  else processM codec .mget none (split path) root false

/-- `Create(obj, path)`. -/
def CreateF (codec : Codec) (root : Val) (path : String) : Val × Except GoErr (Option Val) :=
  if ¬isStructV root then (root, .error (.onlyStructs "create"))
  else if ¬isPointerV root then (root, .error (.onlyStructPointers "create"))
  else processM codec .mcreate none (split path) root false

/-- `Set(obj, path, value)`. -/
def SetF (codec : Codec) (root : Val) (path : String) (value : Option Val) :
    Val × Except GoErr (Option Val) :=
  if ¬isStructV root then (root, .error (.onlyStructs "set"))
  else if ¬isPointerV root then (root, .error (.onlyStructPointers "set"))
  else processM codec .mset value (split path) root false

/-- A root shaped like the test fixtures: a pointer to a struct with a string
field, a fixed two-element int array field, a growable int slice field and a
string-keyed map field. -/
def sampleRoot : Val :=
  .vptr (.strukt (fieldTys sampleFields)) (.vstruct sampleFields)
where
  sampleFields : VFields :=
    .cons "Name" true .str (.vstr "n")
      (.cons "Arr" true (.array 2 .int) (.varray .int (VList.ofList [.vint 1, .vint 2]))
        (.cons "Items" true (.slice .int)
          (.vslice .int (VList.ofList [.vint 1, .vint 2, .vint 3]))
          (.cons "M" true (.mapT .str .int) (.vmapNil .str .int) .nil)))

example : (GetF codec0 sampleRoot "name").2 = .ok (some (.vstr "n")) := rfl
example : (GetF codec0 sampleRoot "arr[2]").2 = .error .arrayNotExpandable := rfl
example : (SetF codec0 sampleRoot "arr[2]" (some (.vint 9))).2 = .error .arrayNotExpandable := rfl
example : (ExistsF codec0 sampleRoot "arr[2]").2 = .error .arrayNotExpandable := rfl
example : (CreateF codec0 sampleRoot "arr[2]").2 = .error .arrayNotExpandable := rfl
example : (GetF codec0 sampleRoot "arr[1]").2 = .ok (some (.vint 2)) := rfl
example : (ExistsF codec0 sampleRoot "m.key").2 = .ok false := rfl
example : (ExistsF codec0 sampleRoot "m.key").1 = sampleRoot := rfl
example : (SetF codec0 sampleRoot "name" (some (.vstr "x"))).2 = .ok (some (.vstr "x")) := rfl
example :
    (GetF codec0 (SetF codec0 sampleRoot "name" (some (.vstr "x"))).1 "name").2
      = .ok (some (.vstr "x")) := rfl
example :
    (SetF codec0 sampleRoot "items[5]" (some (.vint 7))).2 = .ok (some (.vint 7)) := rfl
example :
    (GetF codec0 (SetF codec0 sampleRoot "items[5]" (some (.vint 7))).1 "items").2
      = .ok (some (.vslice .int (VList.ofList
          [.vint 1, .vint 2, .vint 3, .vint 0, .vint 0, .vint 7]))) := rfl
example :
    (SetF codec0 sampleRoot "m[\"k\"]" (some (.vint 4))).2 = .ok (some (.vint 4)) := rfl
example :
    (GetF codec0 (SetF codec0 sampleRoot "m[\"k\"]" (some (.vint 4))).1 "m").2
      = .ok (some (.vmap .str .int (.cons (.vstr "k") (.vint 4) .nil))) := rfl
example : (ExistsF codec0 sampleRoot "").2 = .ok false := rfl
example : (GetF codec0 sampleRoot ".").2 = .ok none := rfl

/-! ### Claim theorems -/

/-- C10: for every root satisfying an entry point's precondition and every path
whose split yields no segments (for example `""`, `"."`, `".."`): `Get`,
`Create` and `Set` return a nil value with a nil error, `Exists` returns
`(false, nil)`, and the caller's graph is left unchanged. -/
theorem c10_empty_path_noop (codec : Codec) (root : Val) (path : String)
    (value : Option Val) (hsplit : split path = []) :
    (isStructV root = true →
      GetF codec root path = (root, .ok none) ∧
      ExistsF codec root path = (root, .ok false)) ∧
    (isStructV root = true → isPointerV root = true →
      CreateF codec root path = (root, .ok none) ∧
      SetF codec root path value = (root, .ok none)) ∧
    split "" = [] ∧ split "." = [] ∧ split ".." = [] := by
  refine ⟨fun hs => ?_, fun hs hp => ?_, rfl, rfl, rfl⟩
  · constructor
    · simp [GetF, hs, hsplit, processM]
    · simp [ExistsF, hs, hsplit, processM, isNilAny]
  · constructor
    · simp [CreateF, hs, hp, hsplit, processM]
    · simp [SetF, hs, hp, hsplit, processM]

/-- Witness for C10 at the concrete root `sampleRoot` and path `"."`. -/
theorem c10_empty_path_noop_witness :
    GetF codec0 sampleRoot "." = (sampleRoot, .ok none) ∧
    SetF codec0 sampleRoot "." (some (.vint 1)) = (sampleRoot, .ok none) := by
  have h := c10_empty_path_noop codec0 sampleRoot "." (some (.vint 1)) (by decide)
  exact ⟨(h.1 (by decide)).1, (h.2.1 (by decide) (by decide)).2⟩

/-- C6: the path splitter discards empty segments produced by consecutive,
leading or trailing dots, so `"a..b"`, `".a.b"` and `"a.b."` resolve to the
same field as `"a.b"`: `Get`, `Set`, `Exists` and `Create` behave identically
on all four spellings, for every root. -/
theorem c6_dot_collapsing (codec : Codec) (root : Val) (value : Option Val) :
    split "a..b" = split "a.b" ∧ split ".a.b" = split "a.b" ∧
    split "a.b." = split "a.b" ∧
    GetF codec root "a..b" = GetF codec root "a.b" ∧
    GetF codec root ".a.b" = GetF codec root "a.b" ∧
    GetF codec root "a.b." = GetF codec root "a.b" ∧
    SetF codec root "a..b" value = SetF codec root "a.b" value ∧
    SetF codec root ".a.b" value = SetF codec root "a.b" value ∧
    SetF codec root "a.b." value = SetF codec root "a.b" value ∧
    ExistsF codec root "a..b" = ExistsF codec root "a.b" ∧
    ExistsF codec root ".a.b" = ExistsF codec root "a.b" ∧
    ExistsF codec root "a.b." = ExistsF codec root "a.b" ∧
    CreateF codec root "a..b" = CreateF codec root "a.b" ∧
    CreateF codec root ".a.b" = CreateF codec root "a.b" ∧
    CreateF codec root "a.b." = CreateF codec root "a.b" :=
  ⟨rfl, rfl, rfl, rfl, rfl, rfl, rfl, rfl, rfl, rfl, rfl, rfl, rfl, rfl, rfl⟩

/-- C9 counterexample: assigning a concrete non-interface value into an
interface-typed destination slot with a non-interface declared element type
raises a string-payloaded fault inside the body (probing `Implements` on a
non-interface type panics with a plain string); the recover block traps it but
its `if e, ok := r.(error); ok` filter does not convert it, so the helper
returns a nil result, nothing stored and a nil error - a silent success, not
an ordinary returned error as the claim states. -/
theorem c9_counterexample_string_panic_swallowed :
    setValueCore codec0 .iface true .int (some (.vint 1))
      = .faultStr "reflect: non-interface type passed to Type.Implements" ∧
    setValueM codec0 .iface true .int (some (.vint 1)) = .ok (none, none) ∧
    ∀ ge, setValueM codec0 .iface true .int (some (.vint 1)) ≠ .error ge := by
  refine ⟨rfl, rfl, ?_⟩
  intro ge
  simp [setValueM, setValueCore]

/-- C9 amended: the recover block of the container-coercion helper `setValue`
traps every fault raised in its body, so no fault ever propagates to the
caller; a fault whose payload is an error value (the `*reflect.ValueError`
faults raised by a nil caller value) is converted into an ordinary returned
error, while a fault whose payload is a plain string (`Implements` probed on a
non-interface type, the `set` callback handed a value of the wrong type) is
swallowed, the helper returning a nil result and a nil error; a normal outcome
is returned unchanged. -/
theorem c9_setvalue_fault_filter (codec : Codec) (fieldTy : Ty) (canSet : Bool)
    (e : Ty) (value : Option Val) :
    (∀ ge, setValueCore codec fieldTy canSet e value = .fault ge →
      setValueM codec fieldTy canSet e value = .error ge) ∧
    (∀ msg, setValueCore codec fieldTy canSet e value = .faultStr msg →
      setValueM codec fieldTy canSet e value = .ok (none, none)) ∧
    (∀ r, setValueCore codec fieldTy canSet e value = .norm r →
      setValueM codec fieldTy canSet e value = r) := by
  refine ⟨?_, ?_, ?_⟩ <;> intro x hx <;> simp [setValueM, hx]

/-- Witness for the amended C9: a nil caller value faults with an error-typed
payload and comes back as a returned error, while the `Implements` probe on a
non-interface type faults with a string payload and comes back as a silent nil
result with nil error. -/
theorem c9_setvalue_fault_filter_witness :
    setValueCore codec0 .int true .int none = .fault .reflectValueError ∧
    setValueM codec0 .int true .int none = .error .reflectValueError ∧
    setValueCore codec0 .iface true .int (some (.vint 1))
      = .faultStr "reflect: non-interface type passed to Type.Implements" ∧
    setValueM codec0 .iface true .int (some (.vint 1)) = .ok (none, none) := by
  refine ⟨rfl, ?_, rfl, ?_⟩
  · exact (c9_setvalue_fault_filter codec0 .int true .int none).1
      .reflectValueError rfl
  · exact (c9_setvalue_fault_filter codec0 .iface true .int
      (some (.vint 1))).2.1 _ rfl

/-- When no hook in a prefix matches, the hook search continues in the rest. -/
theorem find_hook_append (t : Ty) (pre l : List ParserHook)
    (hpre : ∀ h2 ∈ pre, h2.To ≠ t) :
    (pre ++ l).find? (fun h => h.To == t) = l.find? (fun h => h.To == t) := by
  induction pre with
  | nil => rfl
  | cons h rest ih =>
      have hne : h.To ≠ t := hpre h (by simp)
      have : (h.To == t) = false := by simpa using hne
      simp only [List.cons_append, List.find?, this]
      exact ih (fun h2 hm => hpre h2 (by simp [hm]))

/-- C7: if some hook's target type equals the requested type, `Parse` returns
exactly the first such hook's result, with no built-in conversion; if no hook
matches, the hooks have no effect on the result. -/
theorem c7_hook_dispatch (codec : Codec) (txt : String) (t : Ty) :
    (∀ (pre post : List ParserHook) (h : ParserHook),
      (∀ h2 ∈ pre, h2.To ≠ t) → h.To = t →
      parse codec t txt (pre ++ h :: post) = h.Fn txt) ∧
    (∀ hooks : List ParserHook, (∀ h2 ∈ hooks, h2.To ≠ t) →
      parse codec t txt hooks = parse codec t txt []) := by
  constructor
  · intro pre post h hpre hh
    unfold parse
    rw [find_hook_append t pre (h :: post) hpre]
    simp [List.find?, hh]
  · intro hooks hnone
    unfold parse
    rw [show hooks = hooks ++ [] by simp, find_hook_append t hooks [] hnone]

/-- Witness for C7: a non-matching hook followed by a matching one — the
matching hook's result is returned; and a single non-matching hook leaves the
built-in conversion unchanged. -/
theorem c7_hook_dispatch_witness :
    parse codec0 .int "5"
      [⟨.str, fun _ => .ok (some (.vstr "s"))⟩, ⟨.int, fun _ => .ok (some (.vint 42))⟩]
      = .ok (some (.vint 42)) ∧
    parse codec0 .int "5" [⟨.str, fun _ => .ok (some (.vstr "s"))⟩]
      = parse codec0 .int "5" [] := by
  constructor
  · have h := (c7_hook_dispatch codec0 "5" .int).1
      [⟨.str, fun _ => .ok (some (.vstr "s"))⟩] []
      ⟨.int, fun _ => .ok (some (.vint 42))⟩
      (by intro h2 hm; simp at hm; subst hm; decide) rfl
    simpa using h
  · exact (c7_hook_dispatch codec0 "5" .int).2
      [⟨.str, fun _ => .ok (some (.vstr "s"))⟩]
      (by intro h2 hm; simp at hm; subst hm; decide)

/-- The length of a converted list. -/
theorem vlist_length_ofList (l : List Val) : (VList.ofList l).length = l.length := by
  induction l with
  | nil => rfl
  | cons v rest ih => simp [VList.ofList, VList.length, ih, Nat.add_comm]

/-- C8: for a byte-sequence or byte-array target, `Parse` decodes a
`0x`-prefixed literal as hexadecimal; for a sequence the result length equals
the decoded byte count, and for a fixed array the decoded bytes are copied
into a zero array, so a shorter literal leaves the remaining slots zero. -/
theorem c8_hex_decoding (codec : Codec) (txt : String) (bs : List Nat) (n : Nat) :
    (has0x txt = true → hexDecode (txt.data.drop 2) = some bs →
      parse codec (.slice .u8) txt [] = .ok (some (.vslice .u8 (VList.ofList (bs.map Val.vu8)))) ∧
      (VList.ofList (bs.map Val.vu8)).length = bs.length ∧
      parse codec (.array n .u8) txt [] = .ok (some (.varray .u8 (VList.append
        (VList.ofList ((bs.take n).map Val.vu8))
        (VList.replicate (n - bs.length) (.vu8 0)))))) ∧
    parse codec (.slice .u8) "0x68656c6c6f" []
      = .ok (some (.vslice .u8 (VList.ofList [.vu8 104, .vu8 101, .vu8 108, .vu8 108, .vu8 111]))) ∧
    parse codec (.array 3 .u8) "0x0102" []
      = .ok (some (.varray .u8 (VList.ofList [.vu8 1, .vu8 2, .vu8 0]))) := by
  refine ⟨fun h0 hdec => ⟨?_, by simp [vlist_length_ofList], ?_⟩, rfl, rfl⟩
  · simp [parse, parseI, h0, hdec]
  · simp [parse, parseI, h0, hdec]

/-- Witness for C8 at the literal `"0x0102"` and a three-byte array. -/
theorem c8_hex_decoding_witness :
    parse codec0 (.slice .u8) "0x0102" []
      = .ok (some (.vslice .u8 (VList.ofList [.vu8 1, .vu8 2]))) ∧
    parse codec0 (.array 3 .u8) "0x0102" []
      = .ok (some (.varray .u8 (VList.append
          (VList.ofList [.vu8 1, .vu8 2]) (VList.replicate 1 (.vu8 0))))) := by
  have h := (c8_hex_decoding codec0 "0x0102" [1, 2] 3).1 rfl rfl
  exact ⟨h.1, h.2.2⟩

/-- The built-in conversion never returns a nil value without an error. -/
theorem parseI_ne_ok_none (codec : Codec) (t : Ty) (s : String) :
    parseI codec t s ≠ .ok none := by
  cases t <;> (try (rename_i t1; cases t1)) <;>
    intro h <;>
    simp only [parseI, Except.map] at h <;>
    (repeat' split at h) <;>
    simp_all

/-- The map-target behavior of `Parse`, stated on its own from the amended
claim's words: the text is split on `,` by the group-aware splitter
(preserving empties); each piece is split on every `=`; a piece that does not
split into exactly two parts (no `=`, or more than one `=`) is silently
skipped; the two sides of each remaining piece are parsed by the supplied
key and value parsers, whose errors fail the whole parse; entries are stored
in order, later pieces overwriting earlier ones with the same key.  Empty
text contributes the single piece `""`, which has no `=` and is skipped, so
the result is the empty map. -/
def mapParseSpec (pk pv : String → Except GoErr (Option Val)) :
    List String → VEntries → Except GoErr VEntries
  | [], es => .ok es
  | p :: rest, es =>
      match splitAllChar '=' p.data [] with
      | [k0, v0] =>
          match pk (String.mk k0) with
          | .error err => .error err
          | .ok none => .error .reflectValueError
          | .ok (some kw) =>
              match pv (String.mk v0) with
              | .error err => .error err
              | .ok none => .error .reflectValueError
              | .ok (some vw) => mapParseSpec pk pv rest (es.insertE kw vw)
      | _ => mapParseSpec pk pv rest es

/-- C2, counterexample to the claim as stated: the piece `a=b=c` contains two
`=` characters, so `strings.Split` yields three parts and the piece is
silently skipped — the result is the empty map, not a map binding `a` to
`b=c` as "split once on the first `=`" would produce. -/
theorem c2_counterexample_split_once :
    parse codec0 (.mapT .str .str) "a=b=c" [] = .ok (some (.vmap .str .str .nil)) ∧
    Except.ok (some (Val.vmap .str .str .nil))
      ≠ (Except.ok (some (Val.vmap .str .str (.cons (.vstr "a") (.vstr "b=c") .nil)))
          : Except GoErr (Option Val)) := by
  exact ⟨rfl, by decide⟩

/-- The map fold of the parser absorbs an error accumulator. -/
theorem mapfold_error (codec : Codec) (kt vt : Ty) (ps : List String) (err : GoErr) :
    (ps.foldl
      (fun (acc : Except GoErr VEntries) p =>
        match acc with
        | .error err => .error err
        | .ok es =>
            match splitAllChar '=' p.data [] with
            | [k0, v0] =>
                match parseI codec kt (String.mk k0) with
                | .error err => .error err
                | .ok none => .error .reflectValueError
                | .ok (some kw) =>
                    match parseI codec vt (String.mk v0) with
                    | .error err => .error err
                    | .ok none => .error .reflectValueError
                    | .ok (some vw) => .ok (es.insertE kw vw)
            | _ => .ok es)
      (.error err)) = .error err := by
  induction ps with
  | nil => rfl
  | cons p rest ih => simpa using ih

/-- The map fold of the parser computes `mapParseSpec`. -/
theorem mapfold_spec (codec : Codec) (kt vt : Ty) (ps : List String) (es : VEntries) :
    (ps.foldl
      (fun (acc : Except GoErr VEntries) p =>
        match acc with
        | .error err => .error err
        | .ok es =>
            match splitAllChar '=' p.data [] with
            | [k0, v0] =>
                match parseI codec kt (String.mk k0) with
                | .error err => .error err
                | .ok none => .error .reflectValueError
                | .ok (some kw) =>
                    match parseI codec vt (String.mk v0) with
                    | .error err => .error err
                    | .ok none => .error .reflectValueError
                    | .ok (some vw) => .ok (es.insertE kw vw)
            | _ => .ok es)
      (.ok es))
    = mapParseSpec (fun s => parseI codec kt s) (fun s => parseI codec vt s) ps es := by
  induction ps generalizing es with
  | nil => rfl
  | cons p rest ih =>
      simp only [List.foldl, mapParseSpec]
      cases hsp : splitAllChar '=' p.data [] with
      | nil => simpa using ih es
      | cons k0 tl =>
          cases tl with
          | nil => simpa using ih es
          | cons v0 tl2 =>
              cases tl2 with
              | nil =>
                  dsimp only
                  have hkne := parseI_ne_ok_none codec kt (String.mk k0)
                  have hvne := parseI_ne_ok_none codec vt (String.mk v0)
                  generalize hk : parseI codec kt (String.mk k0) = kr at *
                  cases kr with
                  | error err => simpa using mapfold_error codec kt vt rest err
                  | ok kw =>
                      cases kw with
                      | none => exact absurd rfl hkne
                      | some kw2 =>
                          generalize hv : parseI codec vt (String.mk v0) = vr at *
                          cases vr with
                          | error err => simpa using mapfold_error codec kt vt rest err
                          | ok vw =>
                              cases vw with
                              | none => exact absurd rfl hvne
                              | some vw2 => simpa using ih (es.insertE kw2 vw2)
              | cons _ _ => simpa using ih es

/-- C2, amended: when `Parse` targets a map type (with no hook for it), the
text is split on `,` by the group-aware splitter preserving empties, each
piece is split on every `=`, a piece that does not split into exactly two
parts (no `=`, or more than one `=`) is silently skipped rather than causing
an error, the two sides of each remaining piece are recursively parsed into
the map's key and value types, and empty text yields an empty, non-nil map. -/
theorem c2_map_parse_amended (codec : Codec) (kt vt : Ty) (txt : String) :
    parse codec (.mapT kt vt) txt []
      = (mapParseSpec (fun s => parse codec kt s []) (fun s => parse codec vt s [])
          (splitG txt ',') .nil).map (fun es => some (.vmap kt vt es)) ∧
    parse codec (.mapT kt vt) "" [] = .ok (some (.vmap kt vt .nil)) := by
  constructor
  · show parseI codec (.mapT kt vt) txt = _
    simp only [parseI]
    rw [mapfold_spec codec kt vt (splitG txt ',') .nil]
    rfl
  · rfl

/-! ### Frame lemmas for the CheckExists mode -/

/-- Writing back the value a field already holds leaves the fields unchanged. -/
theorem setLower_self : ∀ (fs : VFields) (fn nm : String) (e : Bool) (t : Ty) (w : Val),
    fs.findLower fn = some (nm, e, t, w) → fs.setLower fn w = fs
  | .nil, fn, nm, e, t, w, h => by simp [VFields.findLower] at h
  | .cons name exp ft fv rest, fn, nm, e, t, w, h => by
      by_cases hc : String.mk (name.data.map lowerChar) = fn
      · simp only [VFields.findLower, hc, if_pos] at h
        simp only [Option.some.injEq, Prod.mk.injEq] at h
        simp [VFields.setLower, hc, h.2.2.2]
      · simp only [VFields.findLower, hc, if_neg, not_false_iff] at h
        simp [VFields.setLower, hc, setLower_self rest fn nm e t w h]

/-- Writing back the element a list already holds leaves the list unchanged. -/
theorem setAt_getD_self : ∀ (xs : VList) (i : Nat) (d : Val),
    xs.setAt i (xs.getD i d) = xs
  | .nil, _, _ => rfl
  | .cons v rest, 0, _ => rfl
  | .cons v rest, i + 1, d => by
      simp [VList.setAt, VList.getD, setAt_getD_self rest i d]

/-- Re-storing the value an entry already holds leaves the entries unchanged. -/
theorem insertE_lookup_self : ∀ (es : VEntries) (k w : Val),
    es.lookup k = some w → es.insertE k w = es
  | .nil, k, w, h => by simp [VEntries.lookup] at h
  | .cons k2 v2 rest, k, w, h => by
      by_cases hc : k2 = k
      · simp only [VEntries.lookup, hc, if_pos] at h
        injection h with h2
        simp [VEntries.insertE, hc, h2]
      · simp only [VEntries.lookup, hc, if_neg, not_false_iff] at h
        simp [VEntries.insertE, hc, insertE_lookup_self rest k w h]

/-- Re-wrapping the unwrapped pointer chain restores the original value. -/
theorem rewrap_unwrap : ∀ (ch : List Ty) (v core : Val),
    unwrapPtrs v = some (ch, core) → rewrapPtrs ch core = v := by
  intro ch
  induction ch with
  | nil =>
      intro v core h
      cases v
      case vptr t w =>
        simp only [unwrapPtrs] at h
        cases hu : unwrapPtrs w <;> rw [hu] at h <;> simp at h
      case vptrNil t => simp [unwrapPtrs] at h
      all_goals
        simp only [unwrapPtrs, Option.some.injEq, Prod.mk.injEq] at h
        rw [← h.2]
        rfl
  | cons t ch2 ih =>
      intro v core h
      cases v
      case vptr t2 w =>
        simp only [unwrapPtrs] at h
        cases hu : unwrapPtrs w <;> rw [hu] at h
        · simp at h
        · rename_i pr
          obtain ⟨chw, corew⟩ := pr
          simp only [Option.some.injEq, Prod.mk.injEq, List.cons.injEq] at h
          obtain ⟨⟨ht, hch⟩, hcore⟩ := h
          subst ht hcore hch
          simp [rewrapPtrs, ih w corew hu]
      case vptrNil t2 => simp [unwrapPtrs] at h
      all_goals
        simp only [unwrapPtrs, Option.some.injEq, Prod.mk.injEq] at h
        exact absurd h.1 (by simp)

/-- Under CheckExists, one navigation step leaves the value unchanged. -/
theorem processM_exists_fst (codec : Codec) (value : Option Val) :
    ∀ (ps : List String) (v : Val) (a : Bool),
      (processM codec .mexists value ps v a).1 = v := by
  intro ps
  induction ps with
  | nil => intro v a; rfl
  | cons seg rest ih =>
      intro v a
      cases hu : unwrapPtrs v with
      | none => simp [processM, hu]
      | some pr =>
          obtain ⟨ch, core⟩ := pr
          have hre := rewrap_unwrap ch v core hu
          cases core
          case vstruct fs =>
            simp only [processM, hu]
            cases hf : fs.findLower (matchArraySeg (normSeg seg)).1 with
            | none => simp [hf, hre]
            | some q =>
                obtain ⟨nm, expf, fty, fval⟩ := q
                cases expf with
                | false => simp [hf, hre]
                | true =>
                    simp only [hf]
                    have hset : ¬(Mode.mexists = Mode.mset ∧ rest = [] ∧
                        (matchArraySeg (normSeg seg)).2 = none) := by simp
                    rw [if_neg hset]
                    by_cases hnil : isNilV fval = true ∧ (rest ≠ [] ∨ Mode.mexists = Mode.mcreate)
                    · rw [if_pos hnil]
                      simp [hre]
                    · rw [if_neg hnil]
                      have hsl := setLower_self fs (matchArraySeg (normSeg seg)).1 nm true fty fval hf
                      cases hko : (matchArraySeg (normSeg seg)).2 with
                      | none =>
                          by_cases hrest : rest = []
                          · simp [hko, hrest, hre]
                          · simp [hko, hrest, hre, hsl, ih]
                      | some ks =>
                          cases fval
                          case neg.some.varray t xs =>
                            by_cases hks : ks = ""
                            · simp [hko, hks, isSliceOrArrayV, lenOfV, hre]
                            · cases hat : atoiGo ks with
                              | none => simp [hko, hks, hat, isSliceOrArrayV, hre]
                              | some n =>
                                  by_cases h0 : (0 : Int) ≤ n
                                  · by_cases hlen : ((xs.length : Int)) > n
                                    · by_cases hrest : rest = [] <;>
                                        simp [hko, hks, hat, h0, hlen, hrest, isSliceOrArrayV, hre, hsl, ih]
                                    · simp [hko, hks, hat, h0, hlen, isSliceOrArrayV, hre]
                                  · by_cases hrest : rest = [] <;>
                                      simp [hko, hks, hat, h0, hrest, isSliceOrArrayV, hre, hsl, ih]
                          case neg.some.vslice t xs =>
                            by_cases hks : ks = ""
                            · simp [hko, hks, isSliceOrArrayV, lenOfV, hre]
                            · cases hat : atoiGo ks with
                              | none => simp [hko, hks, hat, isSliceOrArrayV, hre]
                              | some n =>
                                  by_cases h0 : (0 : Int) ≤ n
                                  · by_cases hlen : ((xs.length : Int)) ≤ n
                                    · simp [hko, hks, hat, h0, hlen, isSliceOrArrayV, hre]
                                    · cases a2 : (if List.isEmpty ch then a else true) <;>
                                      by_cases hrest : rest = [] <;>
                                        simp [hko, hks, hat, h0, hlen, hrest, a2, isSliceOrArrayV,
                                          hre, hsl, ih, setAt_getD_self]
                                  · by_cases hrest : rest = [] <;>
                                      simp [hko, hks, hat, h0, hrest, isSliceOrArrayV, hre, hsl, ih]
                          case neg.some.vsliceNil t =>
                            by_cases hks : ks = ""
                            · simp [hko, hks, isSliceOrArrayV, lenOfV, hre]
                            · cases hat : atoiGo ks with
                              | none => simp [hko, hks, hat, isSliceOrArrayV, hre]
                              | some n =>
                                  by_cases h0 : (0 : Int) ≤ n
                                  · simp [hko, hks, hat, h0, isSliceOrArrayV, hre]
                                  · by_cases hrest : rest = [] <;>
                                      simp [hko, hks, hat, h0, hrest, isSliceOrArrayV, hre, hsl, ih]
                          case neg.some.vmap kt vt es =>
                            by_cases hkt : kt = Ty.str
                            · subst hkt
                              cases hlk : es.lookup (.vstr (String.mk (trimBoth keyCut ks.data))) with
                              | none => simp [hko, hlk, isSliceOrArrayV, hre]
                              | some ev =>
                                  by_cases hrest : rest = [] <;>
                                    simp [hko, hlk, hrest, isSliceOrArrayV, hre, hsl, ih,
                                      insertE_lookup_self]
                            · cases hkp : parseI codec kt (String.mk (trimBoth keyCut ks.data)) with
                              | error e2 => simp [hko, hkt, hkp, isSliceOrArrayV, hre]
                              | ok kw =>
                                  cases kw with
                                  | none => simp [hko, hkt, hkp, isSliceOrArrayV, hre]
                                  | some kw2 =>
                                      cases hlk : es.lookup kw2 with
                                      | none => simp [hko, hkt, hkp, hlk, isSliceOrArrayV, hre]
                                      | some ev =>
                                          by_cases hrest : rest = [] <;>
                                            simp [hko, hkt, hkp, hlk, hrest, isSliceOrArrayV, hre,
                                              hsl, ih, insertE_lookup_self]
                          case neg.some.vmapNil kt vt =>
                            simp [hko, isSliceOrArrayV, hre]
                          all_goals simp [hko, isSliceOrArrayV, hre]
          all_goals simp [processM, hu]

/-- C5: under CheckExists (the `Exists` entry point) the navigator never
mutates the caller's graph, for every root and path: at every absent point it
stops and reports absence without default-constructing, appending or storing
anything, so the returned state always equals the input state. -/
theorem c5_exists_never_mutates (codec : Codec) (root : Val) (path : String) :
    (ExistsF codec root path).1 = root := by
  unfold ExistsF
  by_cases hs : isStructV root = true
  · simp only [hs, Bool.not_true, Bool.false_eq_true, if_false]
    have h := processM_exists_fst codec none (split path) root false
    cases hp : processM codec .mexists none (split path) root false with
    | mk r2 res =>
        rw [hp] at h
        cases res <;> simp_all
  · simp [hs]

/-! ### Fixed-array bounds (C3) -/

/-- The element fold of the sequence/array parser only surfaces element-parse
errors or the invalid-value fault. -/
theorem foldr_parse_ne (codec : Codec) (e : Ty) (parts : List String) (err : GoErr)
    (hIH : ∀ p, parseI codec e p ≠ .error err) (hrv : err ≠ .reflectValueError) :
    (parts.foldr
      (fun p (acc : Except GoErr VList) =>
        match parseI codec e p with
        | .error err => .error err
        | .ok none => .error .reflectValueError
        | .ok (some w) =>
            match acc with
            | .error err => .error err
            | .ok rest => .ok (VList.cons w rest))
      (Except.ok VList.nil)) ≠ .error err := by
  induction parts with
  | nil => simp
  | cons p rest ih =>
      simp only [List.foldr]
      cases hp : parseI codec e p with
      | error e2 =>
          intro hcon
          simp only [Except.error.injEq] at hcon
          exact hIH p (by rw [hp, hcon])
      | ok w =>
          cases w with
          | none => simpa using fun h => hrv h.symm
          | some w2 =>
              cases hacc : rest.foldr
                  (fun p (acc : Except GoErr VList) =>
                    match parseI codec e p with
                    | .error err => .error err
                    | .ok none => .error .reflectValueError
                    | .ok (some w) =>
                        match acc with
                        | .error err => .error err
                        | .ok rest => .ok (VList.cons w rest))
                  (Except.ok VList.nil) with
              | error e3 =>
                  rw [hacc] at ih
                  intro hcon
                  simp only [Except.error.injEq] at hcon
                  exact ih (by rw [hcon])
              | ok xs => simp [hacc]

/-- The entry fold of the map parser only surfaces key/value-parse errors or
the invalid-value fault. -/
theorem foldl_map_ne (codec : Codec) (kt vt : Ty) (parts : List String) (err : GoErr)
    (hk : ∀ p, parseI codec kt p ≠ .error err) (hv : ∀ p, parseI codec vt p ≠ .error err)
    (hrv : err ≠ .reflectValueError) :
    ∀ es : VEntries,
    (parts.foldl
      (fun (acc : Except GoErr VEntries) p =>
        match acc with
        | .error err => .error err
        | .ok es =>
            match splitAllChar '=' p.data [] with
            | [k0, v0] =>
                match parseI codec kt (String.mk k0) with
                | .error err => .error err
                | .ok none => .error .reflectValueError
                | .ok (some kw) =>
                    match parseI codec vt (String.mk v0) with
                    | .error err => .error err
                    | .ok none => .error .reflectValueError
                    | .ok (some vw) => .ok (es.insertE kw vw)
            | _ => .ok es)
      (.ok es)) ≠ .error err := by
  induction parts with
  | nil => intro es; simp
  | cons p rest ih =>
      intro es
      simp only [List.foldl]
      cases hsp : splitAllChar '=' p.data [] with
      | nil => exact ih es
      | cons k0 tl =>
          cases tl with
          | nil => exact ih es
          | cons v0 tl2 =>
              cases tl2 with
              | nil =>
                  dsimp only
                  cases hkp : parseI codec kt (String.mk k0) with
                  | error e2 =>
                      rw [mapfold_error]
                      intro hcon
                      simp only [Except.error.injEq] at hcon
                      exact hk (String.mk k0) (by rw [hkp, hcon])
                  | ok kw =>
                      cases kw with
                      | none =>
                          rw [mapfold_error]
                          simpa using fun h => hrv h.symm
                      | some kw2 =>
                          cases hvp : parseI codec vt (String.mk v0) with
                          | error e2 =>
                              rw [mapfold_error]
                              intro hcon
                              simp only [Except.error.injEq] at hcon
                              exact hv (String.mk v0) (by rw [hvp, hcon])
                          | ok vw =>
                              cases vw with
                              | none =>
                                  rw [mapfold_error]
                                  simpa using fun h => hrv h.symm
                              | some vw2 => exact ih (es.insertE kw2 vw2)
              | cons c cs => exact ih es

/-- The integer parsers only produce syntax or range errors. -/
theorem parseInt64Go_ne_aNE (s : String) : parseInt64Go s ≠ .error .arrayNotExpandable := by
  simp only [parseInt64Go]
  repeat' split
  all_goals simp

/-- The byte parser only produces syntax or range errors. -/
theorem parseUint8Go_ne_aNE (s : String) : parseUint8Go s ≠ .error .arrayNotExpandable := by
  simp only [parseUint8Go]
  repeat' split
  all_goals simp

/-- The parser never reports the navigator's fixed-array bound error. -/
theorem parseI_ne_aNE : ∀ (t : Ty) (codec : Codec) (s : String),
    parseI codec t s ≠ .error .arrayNotExpandable
  | .str, codec, s => by simp [parseI]
  | .ptr .str, codec, s => by simp [parseI]
  | .bool, codec, s => by cases h : parseBoolGo s <;> simp [parseI, h]
  | .ptr .bool, codec, s => by cases h : parseBoolGo s <;> simp [parseI, h]
  | .int, codec, s => by
      have hne := parseInt64Go_ne_aNE s
      cases h : parseInt64Go s with
      | error e2 =>
          rw [h] at hne
          simp only [parseI, h, Except.map]
          simpa using fun hcon => hne (by rw [hcon])
      | ok n => simp [parseI, h, Except.map]
  | .ptr .int, codec, s => by
      have hne := parseInt64Go_ne_aNE s
      cases h : parseInt64Go s with
      | error e2 =>
          rw [h] at hne
          simp only [parseI, h, Except.map]
          simpa using fun hcon => hne (by rw [hcon])
      | ok n => simp [parseI, h, Except.map]
  | .u8, codec, s => by
      have hne := parseUint8Go_ne_aNE s
      cases h : parseUint8Go s with
      | error e2 =>
          rw [h] at hne
          simp only [parseI, h, Except.map]
          simpa using fun hcon => hne (by rw [hcon])
      | ok n => simp [parseI, h, Except.map]
  | .ptr .u8, codec, s => by
      have hne := parseUint8Go_ne_aNE s
      cases h : parseUint8Go s with
      | error e2 =>
          rw [h] at hne
          simp only [parseI, h, Except.map]
          simpa using fun hcon => hne (by rw [hcon])
      | ok n => simp [parseI, h, Except.map]
  | .slice e, codec, s => by
      have hIH : ∀ p, parseI codec e p ≠ .error .arrayNotExpandable :=
        fun p => parseI_ne_aNE e codec p
      have hfold := foldr_parse_ne codec e (splitG s ',') .arrayNotExpandable hIH (by simp)
      simp only [parseI]
      by_cases h1 : e = Ty.u8 ∧ has0x s = true
      · rw [if_pos h1]
        cases h2 : hexDecode (s.data.drop 2) <;> simp [h2]
      · rw [if_neg h1]
        by_cases h3 : s = ""
        · simp [h3]
        · rw [if_neg h3]
          cases hfd : (splitG s ',').foldr
              (fun p (acc : Except GoErr VList) =>
                match parseI codec e p with
                | .error err => .error err
                | .ok none => .error .reflectValueError
                | .ok (some w) =>
                    match acc with
                    | .error err => .error err
                    | .ok rest => .ok (VList.cons w rest))
              (Except.ok VList.nil) with
          | error e2 =>
              rw [hfd] at hfold
              simp only [hfd, Except.map]
              simpa using fun hcon => hfold (by rw [hcon])
          | ok xs => simp [hfd, Except.map]
  | .ptr (.slice e), codec, s => by
      have hIH : ∀ p, parseI codec e p ≠ .error .arrayNotExpandable :=
        fun p => parseI_ne_aNE e codec p
      have hfold := foldr_parse_ne codec e (splitG s ',') .arrayNotExpandable hIH (by simp)
      simp only [parseI]
      by_cases h1 : e = Ty.u8 ∧ has0x s = true
      · rw [if_pos h1]
        cases h2 : hexDecode (s.data.drop 2) <;> simp [h2]
      · rw [if_neg h1]
        by_cases h3 : s = ""
        · simp [h3]
        · rw [if_neg h3]
          cases hfd : (splitG s ',').foldr
              (fun p (acc : Except GoErr VList) =>
                match parseI codec e p with
                | .error err => .error err
                | .ok none => .error .reflectValueError
                | .ok (some w) =>
                    match acc with
                    | .error err => .error err
                    | .ok rest => .ok (VList.cons w rest))
              (Except.ok VList.nil) with
          | error e2 =>
              rw [hfd] at hfold
              simp only [hfd, Except.map]
              simpa using fun hcon => hfold (by rw [hcon])
          | ok xs => simp [hfd, Except.map]
  | .array n e, codec, s => by
      have hIH : ∀ p, parseI codec e p ≠ .error .arrayNotExpandable :=
        fun p => parseI_ne_aNE e codec p
      have hfold := foldr_parse_ne codec e (splitG s ',') .arrayNotExpandable hIH (by simp)
      simp only [parseI]
      by_cases h1 : e = Ty.u8 ∧ has0x s = true
      · rw [if_pos h1]
        cases h2 : hexDecode (s.data.drop 2) <;> simp [h2]
      · rw [if_neg h1]
        by_cases h3 : s = ""
        · simp [h3]
        · rw [if_neg h3]
          by_cases h4 : (splitG s ',').length ≠ n
          · simp [h4]
          · rw [if_neg h4]
            cases hfd : (splitG s ',').foldr
                (fun p (acc : Except GoErr VList) =>
                  match parseI codec e p with
                  | .error err => .error err
                  | .ok none => .error .reflectValueError
                  | .ok (some w) =>
                      match acc with
                      | .error err => .error err
                      | .ok rest => .ok (VList.cons w rest))
                (Except.ok VList.nil) with
            | error e2 =>
                rw [hfd] at hfold
                simp only [hfd, Except.map]
                simpa using fun hcon => hfold (by rw [hcon])
            | ok xs => simp [hfd, Except.map]
  | .ptr (.array n e), codec, s => by
      have hIH : ∀ p, parseI codec e p ≠ .error .arrayNotExpandable :=
        fun p => parseI_ne_aNE e codec p
      have hfold := foldr_parse_ne codec e (splitG s ',') .arrayNotExpandable hIH (by simp)
      simp only [parseI]
      by_cases h1 : e = Ty.u8 ∧ has0x s = true
      · rw [if_pos h1]
        cases h2 : hexDecode (s.data.drop 2) <;> simp [h2]
      · rw [if_neg h1]
        by_cases h3 : s = ""
        · simp [h3]
        · rw [if_neg h3]
          by_cases h4 : (splitG s ',').length ≠ n
          · simp [h4]
          · rw [if_neg h4]
            cases hfd : (splitG s ',').foldr
                (fun p (acc : Except GoErr VList) =>
                  match parseI codec e p with
                  | .error err => .error err
                  | .ok none => .error .reflectValueError
                  | .ok (some w) =>
                      match acc with
                      | .error err => .error err
                      | .ok rest => .ok (VList.cons w rest))
                (Except.ok VList.nil) with
            | error e2 =>
                rw [hfd] at hfold
                simp only [hfd, Except.map]
                simpa using fun hcon => hfold (by rw [hcon])
            | ok xs => simp [hfd, Except.map]
  | .mapT kt vt, codec, s => by
      have hfold := foldl_map_ne codec kt vt (splitG s ',') .arrayNotExpandable
        (fun p => parseI_ne_aNE kt codec p) (fun p => parseI_ne_aNE vt codec p) (by simp)
        VEntries.nil
      simp only [parseI]
      cases hfd : (splitG s ',').foldl
          (fun (acc : Except GoErr VEntries) p =>
            match acc with
            | .error err => .error err
            | .ok es =>
                match splitAllChar '=' p.data [] with
                | [k0, v0] =>
                    match parseI codec kt (String.mk k0) with
                    | .error err => .error err
                    | .ok none => .error .reflectValueError
                    | .ok (some kw) =>
                        match parseI codec vt (String.mk v0) with
                        | .error err => .error err
                        | .ok none => .error .reflectValueError
                        | .ok (some vw) => .ok (es.insertE kw vw)
                | _ => .ok es)
          (.ok .nil) with
      | error e2 =>
          rw [hfd] at hfold
          simp only [hfd, Except.map]
          simpa using fun hcon => hfold (by rw [hcon])
      | ok es => simp [hfd, Except.map]
  | .ptr (.mapT kt vt), codec, s => by
      have hfold := foldl_map_ne codec kt vt (splitG s ',') .arrayNotExpandable
        (fun p => parseI_ne_aNE kt codec p) (fun p => parseI_ne_aNE vt codec p) (by simp)
        VEntries.nil
      simp only [parseI]
      cases hfd : (splitG s ',').foldl
          (fun (acc : Except GoErr VEntries) p =>
            match acc with
            | .error err => .error err
            | .ok es =>
                match splitAllChar '=' p.data [] with
                | [k0, v0] =>
                    match parseI codec kt (String.mk k0) with
                    | .error err => .error err
                    | .ok none => .error .reflectValueError
                    | .ok (some kw) =>
                        match parseI codec vt (String.mk v0) with
                        | .error err => .error err
                        | .ok none => .error .reflectValueError
                        | .ok (some vw) => .ok (es.insertE kw vw)
                | _ => .ok es)
          (.ok .nil) with
      | error e2 =>
          rw [hfd] at hfold
          simp only [hfd, Except.map]
          simpa using fun hcon => hfold (by rw [hcon])
      | ok es => simp [hfd, Except.map]
  | .strukt fsT, codec, s => by
      cases h : codec (.strukt fsT) s <;> simp [parseI, h]
  | .ptr (.strukt fsT), codec, s => by
      cases h : codec (.strukt fsT) s <;> simp [parseI, h]
  | .iface, codec, s => by simp [parseI]
  | .ptr .iface, codec, s => by simp [parseI]
  | .ptr (.ptr t2), codec, s => by simp [parseI]

/-- The container-coercion helper never reports the fixed-array bound error. -/
theorem setValueM_ne_aNE (codec : Codec) (fieldTy : Ty) (canSet : Bool) (e : Ty)
    (value : Option Val) :
    setValueM codec fieldTy canSet e value ≠ .error .arrayNotExpandable := by
  unfold setValueM setValueCore
  repeat' split
  all_goals rename_i heq
  all_goals repeat' split at heq
  all_goals try (injection heq with h2; subst h2; simp)
  all_goals try simp_all
  all_goals try (repeat' split at heq)
  all_goals try (injection heq with h2; subst h2; simp)
  all_goals try simp_all
  all_goals
    rename_i hp
    intro hcon
    exact parseI_ne_aNE _ codec _ (by rw [hp, hcon])

/-- A value whose pointer chain unwraps to a struct satisfies the entry-point
struct guard. -/
theorem isStruct_of_unwrap : ∀ (ch : List Ty) (v : Val) (fs : VFields),
    unwrapPtrs v = some (ch, .vstruct fs) → isStructV v = true := by
  intro ch
  induction ch with
  | nil =>
      intro v fs h
      cases v
      case vptr t w =>
        simp only [unwrapPtrs] at h
        cases hu : unwrapPtrs w <;> rw [hu] at h <;> simp at h
      case vptrNil t => simp [unwrapPtrs] at h
      all_goals
        simp only [unwrapPtrs, Option.some.injEq, Prod.mk.injEq] at h
        first
        | (rw [show Val.vstruct fs = _ from h.2.symm] at *; rfl)
        | (exact absurd h.2 (by simp))
  | cons t ch2 ih =>
      intro v fs h
      cases v
      case vptr t2 w =>
        simp only [unwrapPtrs] at h
        cases hu : unwrapPtrs w <;> rw [hu] at h
        · simp at h
        · rename_i pr
          obtain ⟨chw, corew⟩ := pr
          simp only [Option.some.injEq, Prod.mk.injEq, List.cons.injEq] at h
          obtain ⟨⟨ht, hch⟩, hcore⟩ := h
          subst hch hcore
          simpa [isStructV] using ih w fs hu
      case vptrNil t2 => simp [unwrapPtrs] at h
      all_goals
        simp only [unwrapPtrs, Option.some.injEq, Prod.mk.injEq] at h
        exact absurd h.1 (by simp)

/-- A numeric bracket index at or beyond a fixed array's length makes one
navigation step fail with the bound error, in every mode, leaving the value
unchanged. -/
theorem processM_array_oob (codec : Codec) (m : Mode) (value : Option Val)
    (root : Val) (seg fn ks nm : String) (n : Nat) (fty t : Ty) (xs : VList)
    (ch : List Ty) (fs : VFields) (a : Bool)
    (hu : unwrapPtrs root = some (ch, .vstruct fs))
    (hseg : matchArraySeg (normSeg seg) = (fn, some ks))
    (hat : atoiGo ks = some (Int.ofNat n))
    (hf : fs.findLower fn = some (nm, true, fty, .varray t xs))
    (hlen : xs.length ≤ n) :
    processM codec m value [seg] root a = (root, .error .arrayNotExpandable) := by
  have hre := rewrap_unwrap ch root (.vstruct fs) hu
  have hks : ks ≠ "" := by
    intro h
    rw [h] at hat
    simp [atoiGo] at hat
  have hgt : ¬((xs.length : Int) > Int.ofNat n) := by
    simp only [gt_iff_lt, not_lt]
    exact Int.ofNat_le.mpr hlen
  have hgtn : ¬(n < xs.length) := not_lt.mpr hlen
  simp only [processM, hu, hseg, hf]
  simp [hks, hat, isSliceOrArrayV, isNilV, hgt, hgtn, hre,
    show ∀ r : List String, ¬(m = Mode.mset ∧ r = [] ∧ some ks = none) from by simp]

/-- A numeric bracket index strictly below a fixed array's length never
produces the bound error, in any mode. -/
theorem processM_array_inrange (codec : Codec) (m : Mode) (value : Option Val)
    (root : Val) (seg fn ks nm : String) (n : Nat) (fty t : Ty) (xs : VList)
    (ch : List Ty) (fs : VFields) (a : Bool)
    (hu : unwrapPtrs root = some (ch, .vstruct fs))
    (hseg : matchArraySeg (normSeg seg) = (fn, some ks))
    (hat : atoiGo ks = some (Int.ofNat n))
    (hf : fs.findLower fn = some (nm, true, fty, .varray t xs))
    (hlen : n < xs.length) :
    (processM codec m value [seg] root a).2 ≠ .error .arrayNotExpandable := by
  have hks : ks ≠ "" := by
    intro h
    rw [h] at hat
    simp [atoiGo] at hat
  have hgt : Int.ofNat n < (xs.length : Int) := Int.ofNat_lt.mpr hlen
  simp only [processM, hu, hseg, hf]
  cases m with
  | mset =>
      simp only [hks, hat, isSliceOrArrayV, isNilV, hgt, hlen]
      simp [hks, hat, isSliceOrArrayV, isNilV, hgt, hlen]
      cases hsv : setValueM codec t (!decide (ch = []) || a) t value with
      | error e2 =>
          have hne := setValueM_ne_aNE codec t (!decide (ch = []) || a) t value
          rw [hsv] at hne
          simp [hsv]
          simpa using fun hcon => hne (by rw [hcon])
      | ok pr =>
          obtain ⟨valr2, stored⟩ := pr
          cases stored <;> simp [hsv]
  | mget => simp [hks, hat, isSliceOrArrayV, isNilV, hgt, hlen]
  | mexists => simp [hks, hat, isSliceOrArrayV, isNilV, hgt, hlen]
  | mcreate => simp [hks, hat, isSliceOrArrayV, isNilV, hgt, hlen]

/-- C3: for a fixed-length array field and a numeric bracket index that is not
strictly below the array's length, `Get`, `Set`, `Exists` and `Create` all
fail with the same error "array isn't expandable" (leaving the caller's graph
unchanged), while an in-range index never produces this error under any of the
four operations. -/
theorem c3_fixed_array_bounds (codec : Codec) (root : Val) (path seg fn ks nm : String)
    (n : Nat) (fty t : Ty) (xs : VList) (ch : List Ty) (fs : VFields) (value : Option Val)
    (hsplit : split path = [seg])
    (hu : unwrapPtrs root = some (ch, .vstruct fs))
    (hseg : matchArraySeg (normSeg seg) = (fn, some ks))
    (hat : atoiGo ks = some (Int.ofNat n))
    (hf : fs.findLower fn = some (nm, true, fty, .varray t xs)) :
    (xs.length ≤ n →
      GetF codec root path = (root, .error .arrayNotExpandable) ∧
      ExistsF codec root path = (root, .error .arrayNotExpandable) ∧
      (isPointerV root = true →
        CreateF codec root path = (root, .error .arrayNotExpandable) ∧
        SetF codec root path value = (root, .error .arrayNotExpandable))) ∧
    (n < xs.length →
      (GetF codec root path).2 ≠ .error .arrayNotExpandable ∧
      (ExistsF codec root path).2 ≠ .error .arrayNotExpandable ∧
      (CreateF codec root path).2 ≠ .error .arrayNotExpandable ∧
      (SetF codec root path value).2 ≠ .error .arrayNotExpandable) := by
  have hs := isStruct_of_unwrap ch root fs hu
  constructor
  · intro hlen
    have hoob := fun m value => processM_array_oob codec m value root seg fn ks nm n fty t xs
      ch fs false hu hseg hat hf hlen
    refine ⟨?_, ?_, fun hp => ⟨?_, ?_⟩⟩
    · simp [GetF, hs, hsplit, hoob]
    · simp [ExistsF, hs, hsplit, hoob]
    · simp [CreateF, hs, hp, hsplit, hoob]
    · simp [SetF, hs, hp, hsplit, hoob]
  · intro hlen
    have hinr := fun m value => processM_array_inrange codec m value root seg fn ks nm n fty t xs
      ch fs false hu hseg hat hf hlen
    refine ⟨?_, ?_, ?_, ?_⟩
    · simp only [GetF, hs, Bool.not_true, Bool.false_eq_true, if_false, hsplit]
      exact hinr .mget none
    · simp only [ExistsF, hs, Bool.not_true, Bool.false_eq_true, if_false, hsplit]
      cases hp2 : processM codec .mexists none [seg] root false with
      | mk r2 res =>
          have := hinr .mexists none
          rw [hp2] at this
          cases res <;> simp_all
    · by_cases hp : isPointerV root = true
      · simp only [CreateF, hs, hp, Bool.not_true, Bool.false_eq_true, if_false, hsplit]
        exact hinr .mcreate none
      · simp [CreateF, hs, hp]
    · by_cases hp : isPointerV root = true
      · simp only [SetF, hs, hp, Bool.not_true, Bool.false_eq_true, if_false, hsplit]
        exact hinr .mset value
      · simp [SetF, hs, hp]

/-- Witness for C3 on the sample root: index 2 on the two-element array field
fails identically for the four operations; index 1 never yields the error. -/
theorem c3_fixed_array_bounds_witness :
    GetF codec0 sampleRoot "arr[2]" = (sampleRoot, .error .arrayNotExpandable) ∧
    ExistsF codec0 sampleRoot "arr[2]" = (sampleRoot, .error .arrayNotExpandable) ∧
    CreateF codec0 sampleRoot "arr[2]" = (sampleRoot, .error .arrayNotExpandable) ∧
    SetF codec0 sampleRoot "arr[2]" (some (.vint 9)) = (sampleRoot, .error .arrayNotExpandable) ∧
    (GetF codec0 sampleRoot "arr[1]").2 ≠ .error .arrayNotExpandable := by
  have h2 := c3_fixed_array_bounds codec0 sampleRoot "arr[2]" "arr[2]" "arr" "2" "Arr" 2
    (.array 2 .int) .int (VList.ofList [.vint 1, .vint 2]) [.strukt (fieldTys sampleRoot.sampleFields)]
    sampleRoot.sampleFields (some (.vint 9)) rfl rfl rfl rfl rfl
  have h1 := c3_fixed_array_bounds codec0 sampleRoot "arr[1]" "arr[1]" "arr" "1" "Arr" 1
    (.array 2 .int) .int (VList.ofList [.vint 1, .vint 2]) [.strukt (fieldTys sampleRoot.sampleFields)]
    sampleRoot.sampleFields (some (.vint 9)) rfl rfl rfl rfl rfl
  obtain ⟨ha, hb, hcd⟩ := h2.1 (by decide)
  exact ⟨ha, hb, (hcd (by decide)).1, (hcd (by decide)).2, (h1.2 (by decide)).1⟩

/-! ### Sequence growth (C4) -/

theorem vlist_length_append : ∀ (xs ys : VList),
    (xs.append ys).length = xs.length + ys.length
  | .nil, ys => by simp [VList.append, VList.length]
  | .cons v rest, ys => by
      simp [VList.append, VList.length, vlist_length_append rest ys]
      omega

theorem vlist_length_replicate : ∀ (k : Nat) (d : Val),
    (VList.replicate k d).length = k
  | 0, d => rfl
  | k + 1, d => by
      simp [VList.replicate, VList.length, vlist_length_replicate k d]
      omega

theorem vlist_append_assoc : ∀ (xs ys zs : VList),
    (xs.append ys).append zs = xs.append (ys.append zs)
  | .nil, ys, zs => rfl
  | .cons v rest, ys, zs => by
      simp [VList.append, vlist_append_assoc rest ys zs]

theorem vlist_replicate_succ_back (k : Nat) (d : Val) :
    VList.replicate (k + 1) d = (VList.replicate k d).append (.cons d .nil) := by
  induction k with
  | zero => rfl
  | succ j ih => simp [VList.replicate, VList.append, ih]; rw [← ih]; simp [VList.replicate]

theorem vlist_setAt_append_length : ∀ (ys tail : VList) (d w : Val),
    ((ys.append (.cons d tail)).setAt ys.length w) = ys.append (.cons w tail)
  | .nil, tail, d, w => rfl
  | .cons v rest, tail, d, w => by
      have h : (VList.cons v rest).length = rest.length + 1 := by
        simp [VList.length]; omega
      simp [VList.append, h, VList.setAt, vlist_setAt_append_length rest tail d w]

theorem vlist_getD_append_length : ∀ (ys tail : VList) (w d : Val),
    ((ys.append (.cons w tail)).getD ys.length d) = w
  | .nil, tail, w, d => rfl
  | .cons v rest, tail, w, d => by
      have h : (VList.cons v rest).length = rest.length + 1 := by
        simp [VList.length]; omega
      simp [VList.append, h, VList.getD, vlist_getD_append_length rest tail w d]

/-- A root that passes the pointer guard unwraps with a non-empty chain. -/
theorem chain_ne_nil_of_pointer (root : Val) (ch : List Ty) (core : Val)
    (hp : isPointerV root = true) (hu : unwrapPtrs root = some (ch, core)) :
    ch ≠ [] := by
  cases root <;> simp [isPointerV] at hp <;> simp [unwrapPtrs] at hu
  rename_i t w
  cases hw : unwrapPtrs w <;> rw [hw] at hu
  · simp at hu
  · rename_i pr
    obtain ⟨chw, corew⟩ := pr
    simp at hu
    rw [← hu.1]
    simp

/-- C4: `Set` with index `n` on a growable sequence field of current length
`L ≤ n` extends the sequence to exactly `n + 1` elements — the first `L`
elements unchanged, indices `L` to `n - 1` holding default-constructed
elements, index `n` holding the supplied value — and writes the extended
sequence back into the field; the supplied value is returned. -/
theorem c4_slice_growth (codec : Codec) (root : Val) (path seg fn ks nm : String)
    (n : Nat) (t : Ty) (xs : VList) (ch : List Ty) (fs : VFields) (V : Val)
    (hsplit : split path = [seg])
    (hu : unwrapPtrs root = some (ch, .vstruct fs))
    (hp : isPointerV root = true)
    (hseg : matchArraySeg (normSeg seg) = (fn, some ks))
    (hat : atoiGo ks = some (Int.ofNat n))
    (hf : fs.findLower fn = some (nm, true, .slice t, .vslice t xs))
    (hlen : xs.length ≤ n)
    (hcomp : setValueM codec t true t (some V) = .ok (some V, some V))
    (hgr : interfaceOf V = some V) :
    SetF codec root path (some V) =
      (rewrapPtrs ch (.vstruct (fs.setLower fn (.vslice t
        (xs.append ((VList.replicate (n - xs.length) (newWithDefaultsOf t)).append
          (.cons V .nil)))))),
       .ok (some V)) ∧
    (xs.append ((VList.replicate (n - xs.length) (newWithDefaultsOf t)).append
      (.cons V .nil))).length = n + 1 := by
  have hs := isStruct_of_unwrap ch root fs hu
  have hch := chain_ne_nil_of_pointer root ch (.vstruct fs) hp hu
  have hks : ks ≠ "" := by
    intro h
    rw [h] at hat
    simp [atoiGo] at hat
  have hle : (xs.length : Int) ≤ Int.ofNat n := Int.ofNat_le.mpr hlen
  have hrep : VList.replicate (n + 1 - xs.length) (newWithDefaultsOf t)
      = (VList.replicate (n - xs.length) (newWithDefaultsOf t)).append
          (.cons (newWithDefaultsOf t) .nil) := by
    rw [show n + 1 - xs.length = (n - xs.length) + 1 from by omega]
    exact vlist_replicate_succ_back (n - xs.length) (newWithDefaultsOf t)
  have hxs1len : (xs.append (VList.replicate (n - xs.length) (newWithDefaultsOf t))).length
      = n := by
    rw [vlist_length_append, vlist_length_replicate]
    omega
  have hg1 := vlist_setAt_append_length (xs.append
      (VList.replicate (n - xs.length) (newWithDefaultsOf t))) .nil (newWithDefaultsOf t) V
  have hg2 := vlist_getD_append_length (xs.append
      (VList.replicate (n - xs.length) (newWithDefaultsOf t))) .nil V Val.vifaceNil
  rw [hxs1len] at hg1 hg2
  rw [vlist_append_assoc] at hg1
  constructor
  · simp only [SetF, hs, hp, Bool.not_true, Bool.false_eq_true, if_false, hsplit]
    simp only [processM, hu, hseg, hf]
    simp [hks, hat, isNilV, isSliceOrArrayV, hle, hlen, hch, hcomp]
    refine ⟨?_, ?_⟩
    · rw [hrep, hg1, vlist_append_assoc]
    · rw [hrep, hg1, hg2, hgr]
  · rw [vlist_length_append, vlist_length_append, vlist_length_replicate]
    simp [VList.length]
    omega

/-- Witness for C4: `Set(root, "items[5]", 7)` on a three-element sequence
yields six elements — the original three, two defaults, then 7. -/
theorem c4_slice_growth_witness :
    SetF codec0 sampleRoot "items[5]" (some (.vint 7)) =
      (.vptr (.strukt (fieldTys sampleRoot.sampleFields))
        (.vstruct (sampleRoot.sampleFields.setLower "items" (.vslice .int
          ((VList.ofList [.vint 1, .vint 2, .vint 3]).append
            ((VList.replicate 2 (newWithDefaultsOf .int)).append (.cons (.vint 7) .nil)))))),
       .ok (some (.vint 7))) := by
  have h := c4_slice_growth codec0 sampleRoot "items[5]" "items[5]" "items" "5" "Items" 5
    .int (VList.ofList [.vint 1, .vint 2, .vint 3])
    [.strukt (fieldTys sampleRoot.sampleFields)] sampleRoot.sampleFields (.vint 7)
    rfl rfl rfl rfl rfl rfl (by decide) rfl rfl
  exact h.1

/-! ### The Set/Get round trip (C1) -/

/-- Whether a type is a fixed-array type. -/
def isArrayTy : Ty → Bool
  | .array _ _ => true
  | _ => false

/-- Resolve one plain (bracket-free) path segment against a value: unwrap the
pointer chain to a record, match the segment without a bracket payload, and
look the field up case-insensitively, requiring it to be exported; the
declared field type and the field value are returned. -/
def tyFieldOf (v : Val) (seg : String) : Option (Ty × Val) :=
  match unwrapPtrs v with
  | some (_, .vstruct fs) =>
      match matchArraySeg (normSeg seg) with
      | (fn, none) =>
          match fs.findLower fn with
          | some (_, true, fty, fval) => some (fty, fval)
          | _ => none
      | _ => none
  | _ => none

/-- Continue a leaf path through an intermediate field: records recurse into
the field value, pointers to records recurse into the value (or into a fresh
default when the pointer is nil, exactly as the navigator does), anything else
ends the path. -/
def leafNext (go : Val → Option Ty) (fty : Ty) (fval : Val) : Option Ty :=
  match fty with
  | .strukt _ => go fval
  | .ptr (.strukt _) =>
      if isNilV fval then go (newWithDefaultsOf fty) else go fval
  | _ => none

/-- A path names a leaf field of a record reachable from `v`: every segment is
a plain (bracket-free) field name resolving, case-insensitively, to an
exported field; intermediate fields are records or pointers to records (a nil
pointer being default-constructed exactly as the navigator does); the final
segment's declared field type is returned. -/
def leafPath : Val → List String → Option Ty
  | _, [] => none
  | v, seg :: rest =>
      match tyFieldOf v seg with
      | some (fty, fval) =>
          if rest = [] then some fty
          else leafNext (fun w => leafPath w rest) fty fval
      | none => none
termination_by structural _v ps => ps

/-- Reducing one segment of a leaf path when the segment resolves. -/
theorem leafPath_cons (v : Val) (seg : String) (rest : List String) (fty0 : Ty)
    (fval : Val) (htf : tyFieldOf v seg = some (fty0, fval)) :
    leafPath v (seg :: rest)
      = if rest = [] then some fty0
        else leafNext (fun w => leafPath w rest) fty0 fval := by
  simp only [leafPath, htf]

/-- Reducing one segment of a leaf path when the segment does not resolve. -/
theorem leafPath_cons_none (v : Val) (seg : String) (rest : List String)
    (htf : tyFieldOf v seg = none) : leafPath v (seg :: rest) = none := by
  simp only [leafPath, htf]

/-- The one-segment resolution under the hypotheses established by the
navigator's own branch analysis. -/
theorem tyFieldOf_eq (v : Val) (seg : String) (ch : List Ty) (fs : VFields)
    (fn nm : String) (fty0 : Ty) (fval : Val)
    (hu : unwrapPtrs v = some (ch, .vstruct fs))
    (hm : matchArraySeg (normSeg seg) = (fn, none))
    (hfl : fs.findLower fn = some (nm, true, fty0, fval)) :
    tyFieldOf v seg = some (fty0, fval) := by
  simp [tyFieldOf, hu, hm, hfl]

/-- A pointer value holding a string must be a string-typed pointer (a
mis-declared pointee type would make the parser round trip store a value of a
different shape). -/
def goodPtr : Val → Bool
  | .vptr p (.vstr _) => p == .str
  | _ => true

/-- A value is compatible with a field type when the type is the empty
interface, or the value's type equals the field type exactly (a pointer to a
string value being an actual string pointer). -/
def compatible (V : Val) (fty : Ty) : Bool :=
  fty == .iface || (tyOf V == fty && goodPtr V)

/-- Unwrapping after re-wrapping a struct recovers chain and core. -/
theorem unwrap_rewrap (ch : List Ty) (fs : VFields) :
    unwrapPtrs (rewrapPtrs ch (.vstruct fs)) = some (ch, .vstruct fs) := by
  induction ch with
  | nil => rfl
  | cons t ch2 ih => simp [rewrapPtrs, unwrapPtrs, ih]

/-- Looking a field up after overwriting it yields the new value, with name,
exportedness and declared type unchanged. -/
theorem findLower_setLower : ∀ (fs : VFields) (fn nm : String) (e : Bool) (t : Ty)
    (v w : Val), fs.findLower fn = some (nm, e, t, v) →
    (fs.setLower fn w).findLower fn = some (nm, e, t, w)
  | .nil, fn, nm, e, t, v, w, h => by simp [VFields.findLower] at h
  | .cons name exp ft fv rest, fn, nm, e, t, v, w, h => by
      by_cases hc : String.mk (name.data.map lowerChar) = fn
      · simp only [VFields.findLower, hc, if_pos] at h
        simp only [Option.some.injEq, Prod.mk.injEq] at h
        obtain ⟨h1, h2, h3, h4⟩ := h
        subst h1 h2 h3 h4
        simp [VFields.setLower, VFields.findLower, hc]
      · simp only [VFields.findLower, hc, if_neg, not_false_iff] at h
        simp [VFields.setLower, VFields.findLower, hc,
          findLower_setLower rest fn nm e t v w h]

/-- The effective addressability of the struct core is true for a pointer or
an addressable value. -/
theorem addr1_true (v : Val) (a : Bool) (ch : List Ty) (core : Val)
    (haddr : a = true ∨ isPointerV v = true)
    (hu : unwrapPtrs v = some (ch, core)) :
    (if ch.isEmpty then a else true) = true := by
  cases hch : ch with
  | nil =>
      simp only [List.isEmpty_nil, if_pos]
      rcases haddr with h | h
      · exact h
      · exfalso
        cases v <;> simp [isPointerV] at h <;> simp [unwrapPtrs] at hu
        rename_i t w
        cases hw : unwrapPtrs w <;> rw [hw] at hu
        · simp at hu
        · rename_i pr
          obtain ⟨chw, corew⟩ := pr
          rw [hch] at hu
          simp at hu
  | cons t ch2 => simp

/-- A value that unwraps to a struct is not nil. -/
theorem isNilV_of_unwrap_struct (f : Val) (ch : List Ty) (fs : VFields)
    (hu : unwrapPtrs f = some (ch, .vstruct fs)) : isNilV f = false := by
  cases f <;> simp [unwrapPtrs] at hu <;> rfl

/-- Reading a non-interface value through `Interface` yields it unchanged. -/
theorem interfaceOf_of_ne_iface (V : Val) (h : tyOf V ≠ .iface) :
    interfaceOf V = some V := by
  cases V <;> first | rfl | (exfalso; exact h rfl)

/-- A re-wrapped struct is never nil. -/
theorem isNilV_rewrap (ch : List Ty) (fs : VFields) :
    isNilV (rewrapPtrs ch (.vstruct fs)) = false := by
  cases ch <;> rfl

/-- A non-empty leaf path starts at a value that unwraps to a struct. -/
theorem leafPath_unwrap (f : Val) (seg : String) (rest : List String) (fty : Ty)
    (h : leafPath f (seg :: rest) = some fty) :
    ∃ chf fsf, unwrapPtrs f = some (chf, .vstruct fsf) := by
  cases htf : tyFieldOf f seg with
  | none => rw [leafPath_cons_none f seg rest htf] at h; exact absurd h (by simp)
  | some pr =>
      rw [tyFieldOf] at htf
      cases hu : unwrapPtrs f with
      | none => simp [hu] at htf
      | some pr2 =>
          obtain ⟨chf, core⟩ := pr2
          cases core
          case vstruct fsf => exact ⟨chf, fsf, rfl⟩
          all_goals simp [hu] at htf

/-- Setting a compatible non-interface value at a plain one-segment path stores
it verbatim in the field and returns it. -/
theorem processM_leaf_set (codec : Codec) (seg : String) (v : Val) (a : Bool)
    (ch : List Ty) (fs : VFields) (fn nm : String) (fval V : Val)
    (hu : unwrapPtrs v = some (ch, .vstruct fs))
    (hm : matchArraySeg (normSeg seg) = (fn, none))
    (hfl : fs.findLower fn = some (nm, true, tyOf V, fval))
    (haddr1 : (if ch.isEmpty then a else true) = true)
    (hif : tyOf V ≠ .iface)
    (hgood : goodPtr V = true) :
    processM codec .mset (some V) [seg] v a
      = (rewrapPtrs ch (.vstruct (fs.setLower fn V)), .ok (some V)) := by
  have ha : ch = [] → a = true := by
    intro h
    rw [h] at haddr1
    simpa using haddr1
  have hna : ¬(ch = [] ∧ a = false) := by
    rintro ⟨h1, h2⟩
    rw [ha h1] at h2
    exact absurd h2 (by simp)
  cases V
  case viface w => simp [tyOf] at hif
  case vifaceNil => simp [tyOf] at hif
  case vptr p w =>
      cases w
      case vstr s =>
          have hp : p = .str := by simpa [goodPtr] using hgood
          subst hp
          simp [processM, hu, hm, hfl, haddr1, hna, parseI, tyOf, isPtrTy,
            isPtrV]
      all_goals
        simp [processM, hu, hm, hfl, haddr1, hna, parseI, tyOf, isPtrTy,
          isPtrV, canConvert, convVal]
  all_goals
    simp [processM, hu, hm, hfl, haddr1, hna, parseI, tyOf, isPtrTy, isPtrV,
      canConvert, convVal]

/-- Reading a plain one-segment path returns the interface view of the field
value and leaves the state unchanged. -/
theorem processM_leaf_get (codec : Codec) (seg : String) (ch : List Ty)
    (fs2 : VFields) (fn nm : String) (fty : Ty) (W : Val)
    (hm : matchArraySeg (normSeg seg) = (fn, none))
    (hfl2 : fs2.findLower fn = some (nm, true, fty, W)) (a2 : Bool) :
    processM codec .mget none [seg] (rewrapPtrs ch (.vstruct fs2)) a2
      = (rewrapPtrs ch (.vstruct fs2), .ok (interfaceOf W)) := by
  simp [processM, unwrap_rewrap, hm, hfl2]

/-- Descending through a non-nil intermediate field: the recursive `Set`
result is grafted back into the field, and a subsequent `Get` retraces the
same child, re-grafting it unchanged. -/
theorem processM_step_frame (codec : Codec) (seg seg2 : String)
    (rest2 : List String) (v : Val) (a : Bool) (ch : List Ty) (fs : VFields)
    (fn nm : String) (fty0 : Ty) (fval V : Val) (ch2 : List Ty) (fs2 : VFields)
    (hu : unwrapPtrs v = some (ch, .vstruct fs))
    (hm : matchArraySeg (normSeg seg) = (fn, none))
    (hfl : fs.findLower fn = some (nm, true, fty0, fval))
    (hnil : isNilV fval = false)
    (hset : processM codec .mset (some V) (seg2 :: rest2) fval
        (if ch.isEmpty then a else true)
        = (rewrapPtrs ch2 (.vstruct fs2), .ok (some V)))
    (hget : ∀ a2, processM codec .mget none (seg2 :: rest2)
            (rewrapPtrs ch2 (.vstruct fs2)) a2
          = (rewrapPtrs ch2 (.vstruct fs2), .ok (some V))) :
    ∃ ch3 fs3,
      processM codec .mset (some V) (seg :: seg2 :: rest2) v a
        = (rewrapPtrs ch3 (.vstruct fs3), .ok (some V)) ∧
      ∀ a2, processM codec .mget none (seg :: seg2 :: rest2)
            (rewrapPtrs ch3 (.vstruct fs3)) a2
          = (rewrapPtrs ch3 (.vstruct fs3), .ok (some V)) := by
  refine ⟨ch, fs.setLower fn (rewrapPtrs ch2 (.vstruct fs2)), ?_, ?_⟩
  · cases hch : ch.isEmpty with
    | true =>
        simp [hch] at hset
        rw [processM.eq_def]
        simp [hu, hm, hfl, hnil, hch, hset]
    | false =>
        simp [hch] at hset
        rw [processM.eq_def]
        simp [hu, hm, hfl, hnil, hch, hset]
  · intro a2
    have hfl2 := findLower_setLower fs fn nm true fty0 fval
      (rewrapPtrs ch2 (.vstruct fs2)) hfl
    have hget2 := hget (if ch.isEmpty then a2 else true)
    have hsl := setLower_self (fs.setLower fn (rewrapPtrs ch2 (.vstruct fs2)))
      fn nm true fty0 (rewrapPtrs ch2 (.vstruct fs2)) hfl2
    cases hch : ch.isEmpty with
    | true =>
        simp [hch] at hget2
        rw [processM.eq_def]
        simp [unwrap_rewrap, hm, hfl2, isNilV_rewrap, hch, hget2, hsl]
    | false =>
        simp [hch] at hget2
        rw [processM.eq_def]
        simp [unwrap_rewrap, hm, hfl2, isNilV_rewrap, hch, hget2, hsl]

/-- Descending through a nil intermediate pointer field: a default-constructed
pointee is stored first, the recursive `Set` result (computed on the fresh,
non-addressable-as-field but pointer-rooted child) is grafted over it, and a
subsequent `Get` retraces the same child. -/
theorem processM_step_construct (codec : Codec) (seg seg2 : String)
    (rest2 : List String) (v : Val) (a : Bool) (ch : List Ty) (fs : VFields)
    (fn nm : String) (fty0 : Ty) (fval V : Val) (ch2 : List Ty) (fs2 : VFields)
    (hu : unwrapPtrs v = some (ch, .vstruct fs))
    (hm : matchArraySeg (normSeg seg) = (fn, none))
    (hfl : fs.findLower fn = some (nm, true, fty0, fval))
    (hnil : isNilV fval = true)
    (haddr1 : (if ch.isEmpty then a else true) = true)
    (hset : processM codec .mset (some V) (seg2 :: rest2)
        (newWithDefaultsOf fty0) false
        = (rewrapPtrs ch2 (.vstruct fs2), .ok (some V)))
    (hget : ∀ a2, processM codec .mget none (seg2 :: rest2)
            (rewrapPtrs ch2 (.vstruct fs2)) a2
          = (rewrapPtrs ch2 (.vstruct fs2), .ok (some V))) :
    ∃ ch3 fs3,
      processM codec .mset (some V) (seg :: seg2 :: rest2) v a
        = (rewrapPtrs ch3 (.vstruct fs3), .ok (some V)) ∧
      ∀ a2, processM codec .mget none (seg :: seg2 :: rest2)
            (rewrapPtrs ch3 (.vstruct fs3)) a2
          = (rewrapPtrs ch3 (.vstruct fs3), .ok (some V)) := by
  have ha : ch = [] → a = true := by
    intro h
    rw [h] at haddr1
    simpa using haddr1
  have hna : ¬(ch = [] ∧ a = false) := by
    rintro ⟨h1, h2⟩
    rw [ha h1] at h2
    exact absurd h2 (by simp)
  refine ⟨ch, (fs.setLower fn (newWithDefaultsOf fty0)).setLower fn
    (rewrapPtrs ch2 (.vstruct fs2)), ?_, ?_⟩
  · rw [processM.eq_def]
    simp [hu, hm, hfl, hnil, hna, hset]
  · intro a2
    have hflA := findLower_setLower fs fn nm true fty0 fval
      (newWithDefaultsOf fty0) hfl
    have hflB := findLower_setLower (fs.setLower fn (newWithDefaultsOf fty0))
      fn nm true fty0 (newWithDefaultsOf fty0)
      (rewrapPtrs ch2 (.vstruct fs2)) hflA
    have hget2 := hget (if ch.isEmpty then a2 else true)
    have hsl := setLower_self ((fs.setLower fn (newWithDefaultsOf fty0)).setLower
      fn (rewrapPtrs ch2 (.vstruct fs2))) fn nm true fty0
      (rewrapPtrs ch2 (.vstruct fs2)) hflB
    cases hch : ch.isEmpty with
    | true =>
        simp [hch] at hget2
        rw [processM.eq_def]
        simp [unwrap_rewrap, hm, hflB, isNilV_rewrap, hch, hget2, hsl]
    | false =>
        simp [hch] at hget2
        rw [processM.eq_def]
        simp [unwrap_rewrap, hm, hflB, isNilV_rewrap, hch, hget2, hsl]

/-- One navigation induction for the round trip: along a leaf path, `Set`
stores a compatible value and returns it, and `Get` on the resulting state
returns the same value without further mutation. -/
theorem processM_set_get (codec : Codec) :
    ∀ (ps : List String) (v : Val) (a : Bool) (fty : Ty) (V : Val),
      leafPath v ps = some fty →
      isArrayTy fty = false →
      compatible V fty = true →
      (a = true ∨ isPointerV v = true) →
      ∃ ch2 fs2,
        processM codec .mset (some V) ps v a
          = (rewrapPtrs ch2 (.vstruct fs2), .ok (some V)) ∧
        ∀ a2, processM codec .mget none ps (rewrapPtrs ch2 (.vstruct fs2)) a2
            = (rewrapPtrs ch2 (.vstruct fs2), .ok (some V)) := by
  intro ps
  induction ps with
  | nil => intro v a fty V hlp; simp [leafPath] at hlp
  | cons seg rest ih =>
      intro v a fty V hlp hnarr hcomp haddr
      obtain ⟨ch, fs, hu⟩ := leafPath_unwrap v seg rest fty hlp
      have haddr1 := addr1_true v a ch (.vstruct fs) haddr hu
      cases hm : matchArraySeg (normSeg seg) with
      | mk fn ko =>
          cases ko with
          | some ks =>
              have htf : tyFieldOf v seg = none := by
                simp [tyFieldOf, hu, hm]
              rw [leafPath_cons_none v seg rest htf] at hlp
              exact absurd hlp (by simp)
          | none =>
              cases hfl : fs.findLower fn with
              | none =>
                  have htf : tyFieldOf v seg = none := by
                    simp [tyFieldOf, hu, hm, hfl]
                  rw [leafPath_cons_none v seg rest htf] at hlp
                  exact absurd hlp (by simp)
              | some q =>
                  obtain ⟨nm, expf, fty0, fval⟩ := q
                  cases expf with
                  | false =>
                      have htf : tyFieldOf v seg = none := by
                        simp [tyFieldOf, hu, hm, hfl]
                      rw [leafPath_cons_none v seg rest htf] at hlp
                      exact absurd hlp (by simp)
                  | true =>
                      have htf := tyFieldOf_eq v seg ch fs fn nm fty0 fval
                        hu hm hfl
                      rw [leafPath_cons v seg rest fty0 fval htf] at hlp
                      cases rest with
                      | nil =>
                          simp at hlp
                          subst hlp
                          by_cases hif : fty0 = .iface
                          · subst hif
                            have ha : ch = [] → a = true := by
                              intro h
                              rw [h] at haddr1
                              simpa using haddr1
                            have hna : ¬(ch = [] ∧ a = false) := by
                              rintro ⟨h1, h2⟩
                              rw [ha h1] at h2
                              exact absurd h2 (by simp)
                            refine ⟨ch, fs.setLower fn (.viface V), ?_, ?_⟩
                            · simp [processM, hu, hm, hfl, haddr1, hna]
                            · intro a2
                              have hfl2 := findLower_setLower fs fn nm true
                                .iface fval (.viface V) hfl
                              rw [processM_leaf_get codec seg ch
                                (fs.setLower fn (.viface V)) fn nm .iface
                                (.viface V) hm hfl2 a2]
                              rfl
                          · have hcomp2 : tyOf V = fty0 ∧ goodPtr V = true := by
                              unfold compatible at hcomp
                              simp only [Bool.or_eq_true, Bool.and_eq_true,
                                beq_iff_eq] at hcomp
                              rcases hcomp with h | hcomp
                              · exact absurd h hif
                              · exact hcomp
                            obtain ⟨hty, hgood⟩ := hcomp2
                            subst hty
                            refine ⟨ch, fs.setLower fn V, ?_, ?_⟩
                            · exact processM_leaf_set codec seg v a ch fs fn nm
                                fval V hu hm hfl haddr1 hif hgood
                            · intro a2
                              have hfl2 := findLower_setLower fs fn nm true
                                (tyOf V) fval V hfl
                              rw [processM_leaf_get codec seg ch
                                (fs.setLower fn V) fn nm (tyOf V) V hm hfl2 a2]
                              rw [interfaceOf_of_ne_iface V hif]
                      | cons seg2 rest2 =>
                          rw [if_neg (List.cons_ne_nil seg2 rest2)] at hlp
                          cases fty0
                          case strukt fsT =>
                              simp only [leafNext] at hlp
                              obtain ⟨chf, fsf, huf⟩ :=
                                leafPath_unwrap fval seg2 rest2 fty hlp
                              have hnil :=
                                isNilV_of_unwrap_struct fval chf fsf huf
                              obtain ⟨ch2, fs2, hset, hget⟩ := ih fval
                                (if ch.isEmpty then a else true) fty V hlp
                                hnarr hcomp (Or.inl haddr1)
                              exact processM_step_frame codec seg seg2 rest2
                                v a ch fs fn nm (.strukt fsT) fval V ch2 fs2
                                hu hm hfl hnil hset hget
                          case ptr t0 =>
                              cases t0
                              case strukt fsT0 =>
                                  cases hnilf : isNilV fval with
                                  | false =>
                                      simp [leafNext, hnilf] at hlp
                                      obtain ⟨ch2, fs2, hset, hget⟩ := ih fval
                                        (if ch.isEmpty then a else true) fty V
                                        hlp hnarr hcomp (Or.inl haddr1)
                                      exact processM_step_frame codec seg seg2
                                        rest2 v a ch fs fn nm
                                        (.ptr (.strukt fsT0)) fval V ch2 fs2
                                        hu hm hfl hnilf hset hget
                                  | true =>
                                      simp [leafNext, hnilf] at hlp
                                      obtain ⟨ch2, fs2, hset, hget⟩ := ih
                                        (newWithDefaultsOf
                                          (.ptr (.strukt fsT0))) false fty V
                                        hlp hnarr hcomp (Or.inr rfl)
                                      exact processM_step_construct codec seg
                                        seg2 rest2 v a ch fs fn nm
                                        (.ptr (.strukt fsT0)) fval V ch2 fs2
                                        hu hm hfl hnilf haddr1 hset hget
                              all_goals simp [leafNext] at hlp
                          all_goals simp [leafNext] at hlp

/-- C1: for every record root reachable through a pointer, every path naming a
non-array leaf field, and every value compatible with that field's declared
type, `Set(root, path, V)` succeeds returning `V`, and `Get` on the updated
root at the same path returns exactly `V` without further mutation. -/
theorem c1_set_get_roundtrip (codec : Codec) (root : Val) (path : String)
    (fty : Ty) (V : Val)
    (hptr : isPointerV root = true)
    (hlp : leafPath root (split path) = some fty)
    (hnarr : isArrayTy fty = false)
    (hcomp : compatible V fty = true) :
    ∃ root2, SetF codec root path (some V) = (root2, .ok (some V)) ∧
      GetF codec root2 path = (root2, .ok (some V)) := by
  obtain ⟨ch2, fs2, hset, hget⟩ := processM_set_get codec (split path) root
    false fty V hlp hnarr hcomp (Or.inr hptr)
  have hstruct : isStructV root = true := by
    cases hps : split path with
    | nil => rw [hps] at hlp; simp [leafPath] at hlp
    | cons seg rest =>
        rw [hps] at hlp
        obtain ⟨chf, fsf, huf⟩ := leafPath_unwrap root seg rest fty hlp
        exact isStruct_of_unwrap chf root fsf huf
  have hstruct2 : isStructV (rewrapPtrs ch2 (.vstruct fs2)) = true :=
    isStruct_of_unwrap ch2 (rewrapPtrs ch2 (.vstruct fs2)) fs2
      (unwrap_rewrap ch2 fs2)
  refine ⟨rewrapPtrs ch2 (.vstruct fs2), ?_, ?_⟩
  · simp [SetF, hstruct, hptr, hset]
  · simp [GetF, hstruct2, hget false]

/-- Concrete round trip: storing a string into the sample root's Name field
and reading it back. -/
theorem c1_set_get_roundtrip_witness :
    isPointerV sampleRoot = true ∧
    leafPath sampleRoot (split "name") = some .str ∧
    isArrayTy .str = false ∧
    compatible (.vstr "x") .str = true ∧
    ∃ root2,
      SetF codec0 sampleRoot "name" (some (.vstr "x"))
        = (root2, .ok (some (.vstr "x"))) ∧
      GetF codec0 root2 "name" = (root2, .ok (some (.vstr "x"))) :=
  ⟨rfl, by decide, rfl, by decide,
    c1_set_get_roundtrip codec0 sampleRoot "name" .str (.vstr "x") rfl
      (by decide) rfl (by decide)⟩
